import Mathlib

set_option maxRecDepth 4000

/-!
Verification development for the organization membership, invitation and
org-lifecycle services of the repository.  The services under
`server/services/org_member_service.py`, `server/services/org_invitation_service.py`,
`storage/org_invitation_store.py` and `storage/org_store.py` are embedded
shallowly: the relational store is a record of row lists, each service
operation is a pure function from a database state (plus the external
inputs of the call) to a result and a new database state.
UUIDs are modelled as naturals, timestamps as integers (microseconds).
-/

/-- Row of the `role` reference table: `{id, name, rank}`. -/
structure RoleRow where
  id : Nat
  name : String
  rank : Nat

deriving DecidableEq, Repr

/-- Row of the `org_member` table: membership of a user in an org. -/
structure MemberRow where
  orgId : Nat
  userId : Nat
  roleId : Nat
  status : String

deriving DecidableEq, Repr

/-- Row of the `user` table (the fields the services read). -/
structure UserRow where
  id : Nat
  email : Option String
  currentOrgId : Option Nat

deriving DecidableEq, Repr

/-- Row of the `org` table (the fields the services read). -/
structure OrgRow where
  id : Nat
  name : String

deriving DecidableEq, Repr

/-- Row of the `org_invitation` table, following `storage/org_invitation.py`. -/
structure InvRow where
  id : Nat
  token : String
  orgId : Nat
  email : String
  roleId : Nat
  inviterId : Nat
  status : String
  expiresAt : Int
  acceptedAt : Option Int
  acceptedBy : Option Nat

deriving DecidableEq, Repr

/-- Row of one of the org-scoped dependent tables that
`delete_org_cascade` clears (billing_sessions, custom_secrets, ...),
tagged with its table name. -/
structure DepRow where
  tableName : String
  orgId : Nat

deriving DecidableEq, Repr

/-- The database state: one list of rows per table, plus the
auto-increment counter of the `org_invitation` table. -/
structure DB where
  orgs : List OrgRow
  users : List UserRow
  roles : List RoleRow
  members : List MemberRow
  invitations : List InvRow
  depRows : List DepRow
  nextInvId : Nat

deriving DecidableEq, Repr

/-- Role rank constants from `org_member_service.py`. -/
def OWNER_RANK : Nat := 10

/-- Admin rank constant from `org_member_service.py`. -/
def ADMIN_RANK : Nat := 20

/-- Modelled from the spec: role name constant `ROLE_OWNER` lives in
`server/constants.py`, which is not part of the sources; the spec fixes the
built-in role names owner/admin/member. -/
def ROLE_OWNER : String := "owner"

/-- Modelled from the spec: role name constant `ROLE_ADMIN` from
`server/constants.py` (not in the sources). -/
def ROLE_ADMIN : String := "admin"

/-- Modelled from the spec: `RoleStore.get_role_by_id` (role store is an
external collaborator) — immutable reference data looked up by id. -/
def getRoleById (db : DB) (rid : Nat) : Option RoleRow :=
  db.roles.find? (fun r => r.id == rid)

/-- Modelled from the spec: `RoleStore.get_role_by_name` — reference data
looked up by name. -/
def getRoleByName (db : DB) (n : String) : Option RoleRow :=
  db.roles.find? (fun r => r.name == n)

/-- Modelled from the spec: `OrgMemberStore.get_org_member` — lookup of the
membership row unique per (org_id, user_id). -/
def getOrgMember (db : DB) (o u : Nat) : Option MemberRow :=
  db.members.find? (fun m => m.orgId == o && m.userId == u)

/-- Modelled from the spec: `OrgMemberStore.get_org_members` — all
membership rows of one org. -/
def get_org_members (db : DB) (o : Nat) : List MemberRow :=
  db.members.filter (fun m => m.orgId == o)

/-- Modelled from the spec: `OrgMemberStore.remove_user_from_org` — deletes
the (org, user) membership row, reporting whether one existed. -/
def remove_user_from_org (db : DB) (o u : Nat) : Bool × DB :=
  if (getOrgMember db o u).isSome then
    (true, { db with members := db.members.filter (fun m => !(m.orgId == o && m.userId == u)) })
  else
    (false, db)

/-- Modelled from the spec: `OrgMemberStore.add_user_to_org` — inserts a
membership row. -/
def add_user_to_org (db : DB) (o u rid : Nat) (st : String) : DB :=
  { db with members := db.members ++ [⟨o, u, rid, st⟩] }

/-- Modelled from the spec: `UserStore.get_user_by_id` — user lookup by id. -/
def getUserById (db : DB) (u : Nat) : Option UserRow :=
  db.users.find? (fun x => x.id == u)

/-- Modelled from the spec: `UserStore.get_user_by_email_async` — user
lookup by exact stored email. -/
def getUserByEmail (db : DB) (e : String) : Option UserRow :=
  db.users.find? (fun x => x.email == some e)

/-- `OrgMemberService._can_remove_member`: owners remove anyone; admins
remove only strictly lower-privileged (rank above admin) members. -/
def can_remove_member (requesterRank targetRank : Nat) : Bool :=
  if requesterRank == OWNER_RANK then true
  else if requesterRank == ADMIN_RANK then decide (ADMIN_RANK < targetRank)
  else false

/-- Filter predicate of `OrgMemberService._is_last_owner`: the member's
role resolves and has owner rank. -/
def isOwnerRank (db : DB) (m : MemberRow) : Bool :=
  match getRoleById db m.roleId with
  | some r => r.rank == OWNER_RANK
  | none => false

/-- The OWNER-rank membership rows of an org, as enumerated by
`_is_last_owner` (resolve each member's role, filter to owner rank). -/
def ownersOf (db : DB) (o : Nat) : List MemberRow :=
  (get_org_members db o).filter (isOwnerRank db)

/-- `OrgMemberService._is_last_owner`: exactly one OWNER-rank membership
exists and it belongs to the given user. -/
def is_last_owner (db : DB) (o u : Nat) : Bool :=
  match ownersOf db o with
  | [m] => m.userId == u
  | _ => false

/-- `OrgMemberService.remove_org_member`: the full decision sequence of the
source (requester membership, self-check, target membership, role
resolution, rank permission, last-owner guard, store removal), returning
(success, error code) together with the resulting database state. -/
def remove_org_member (db : DB) (orgId targetId currentId : Nat) :
    Bool × Option String × DB :=
  match getOrgMember db orgId currentId with
  | none => (false, some "not_a_member", db)
  | some requesterMembership =>
    if currentId == targetId then (false, some "cannot_remove_self", db)
    else
      match getOrgMember db orgId targetId with
      | none => (false, some "member_not_found", db)
      | some targetMembership =>
        match getRoleById db requesterMembership.roleId,
              getRoleById db targetMembership.roleId with
        | some requesterRole, some targetRole =>
          if !(can_remove_member requesterRole.rank targetRole.rank) then
            (false, some "insufficient_permission", db)
          else if targetRole.rank == OWNER_RANK && is_last_owner db orgId targetId then
            (false, some "cannot_remove_last_owner", db)
          else
            match remove_user_from_org db orgId targetId with
            | (true, db1) => (true, none, db1)
            | (false, _) => (false, some "removal_failed", db)
        | _, _ => (false, some "role_not_found", db)

/-- One member-removal request (org, target user, calling user). -/
structure RemReq where
  orgId : Nat
  targetId : Nat
  currentId : Nat

deriving DecidableEq, Repr

/-- Database state after a sequence of `remove_org_member` calls. -/
def removeFold (db : DB) (reqs : List RemReq) : DB :=
  reqs.foldl (fun d r => (remove_org_member d r.orgId r.targetId r.currentId).2.2) db

/-- Well-formed membership table: the (org_id, user_id) key is unique,
matching the uniqueness constraint of the data model. -/
def wfMembers (db : DB) : Prop :=
  (db.members.map (fun m => (m.orgId, m.userId))).Nodup

instance (db : DB) : Decidable (wfMembers db) := by
  unfold wfMembers; infer_instance

/-- ASCII lowercasing of a string, the model of the source's use of
Python str.lower on email addresses and role names. -/
def lowerStr (s : String) : String := ⟨s.data.map Char.toLower⟩

/-- Strip of leading and trailing whitespace, the model of Python
str.strip. -/
def stripStr (s : String) : String :=
  ⟨((s.data.dropWhile Char.isWhitespace).reverse.dropWhile Char.isWhitespace).reverse⟩

/-- Email normalization as performed by the services: lower then strip. -/
def normEmail (s : String) : String := stripStr (lowerStr s)

/-- The database state after the store deletes the (org, target)
membership rows. -/
def removedState (db : DB) (oq tq : Nat) : DB :=
  { db with members := db.members.filter (fun m => !(m.orgId == oq && m.userId == tq)) }

/-- Built-in owner role of the concrete examples. -/
def roleOwner : RoleRow := ⟨1, "owner", 10⟩

/-- Built-in admin role of the concrete examples. -/
def roleAdmin : RoleRow := ⟨2, "admin", 20⟩

/-- Built-in member role of the concrete examples. -/
def roleMember : RoleRow := ⟨3, "member", 1000⟩

/-- Concrete database: org 1 has sole owner (user 2) and a plain member
(user 3). -/
def exDb1 : DB :=
  { orgs := [⟨1, "g"⟩]
  , users := [⟨2, some "o@x.com", some 1⟩, ⟨3, some "c@x.com", some 1⟩]
  , roles := [roleOwner, roleAdmin, roleMember]
  , members := [⟨1, 2, 1, "active"⟩, ⟨1, 3, 3, "active"⟩]
  , invitations := []
  , depRows := []
  , nextInvId := 1 }

/-- Status constant of `storage/org_invitation.py`. -/
def STATUS_PENDING : String := "pending"

/-- Status constant: accepted. -/
def STATUS_ACCEPTED : String := "accepted"

/-- Status constant: revoked. -/
def STATUS_REVOKED : String := "revoked"

/-- Status constant: expired. -/
def STATUS_EXPIRED : String := "expired"

/-- Token of a freshly created invitation.  The source draws 48 random
alphanumeric characters after the fixed marker; randomness is modelled
deterministically by the fresh invitation id. -/
def invTokenOf (n : Nat) : String := "inv-" ++ toString n

/-- Default invitation lifetime from `org_invitation_store.py`. -/
def DEFAULT_EXPIRATION_DAYS : Nat := 7

/-- One day in microseconds. -/
def dayMicros : Int := 86400000000

/-- `OrgInvitationStore.is_token_expired`: strictly past its
expires_at stamp. -/
def is_token_expired (inv : InvRow) (now : Int) : Bool :=
  decide (inv.expiresAt < now)

/-- Store lookup of an invitation by token
(`OrgInvitationStore.get_invitation_by_token`). -/
def findInvByToken (db : DB) (t : String) : Option InvRow :=
  db.invitations.find? (fun i => i.token == t)

/-- Store lookup of an invitation by primary key. -/
def findInvById (db : DB) (invId : Nat) : Option InvRow :=
  db.invitations.find? (fun i => i.id == invId)

/-- Status of the invitation holding a token, if any. -/
def statusByToken (db : DB) (t : String) : Option String :=
  (findInvByToken db t).map (fun i => i.status)

/-- The row update performed by `OrgInvitationStore.update_invitation_status`:
overwrite the status unconditionally; stamp accepted_at/accepted_by only
when the new status is accepted and an acceptor is supplied. -/
def setStatusRow (st : String) (acceptedBy : Option Nat) (now : Int) (i : InvRow) : InvRow :=
  let i1 := { i with status := st }
  if st == STATUS_ACCEPTED && acceptedBy.isSome then
    { i1 with acceptedAt := some now, acceptedBy := acceptedBy }
  else i1

/-- Replace the first row carrying the given id. -/
def updateFirstInv (l : List InvRow) (invId : Nat) (f : InvRow → InvRow) : List InvRow :=
  match l with
  | [] => []
  | r :: rest => if r.id == invId then f r :: rest else r :: updateFirstInv rest invId f

/-- `OrgInvitationStore.update_invitation_status`: load by id, overwrite
the status (no state-machine restriction), stamp acceptance fields for the
accepted status, and persist. -/
def update_invitation_status (db : DB) (invId : Nat) (st : String)
    (acceptedBy : Option Nat) (now : Int) : Option InvRow × DB :=
  match findInvById db invId with
  | none => (none, db)
  | some inv =>
    (some (setStatusRow st acceptedBy now inv),
     { db with invitations := updateFirstInv db.invitations invId (setStatusRow st acceptedBy now) })

/-- Errors raised by `OrgInvitationService.accept_invitation`
(`org_invitation_models.py` exception classes). -/
inductive InvErr where
  | invalid (msg : String)
  | expired (msg : String)
  | emailMismatch (msg : String)
  | alreadyMember (msg : String)

deriving DecidableEq, Repr

/-- External inputs of one accept_invitation call: the token and caller,
the identity-provider fallback email (TokenManager, an external
collaborator), the outcome of the external LiteLLM provisioning call, and
the call time. -/
structure AcceptCall where
  token : String
  userId : Nat
  kcEmail : Option String
  litellmOk : Bool
  now : Int

deriving DecidableEq, Repr

/-- Python truthiness of an optional email (an empty string counts as
missing, as in the source's `if not user_email`). -/
def truthyEmail (o : Option String) : Option String :=
  match o with
  | some e => if e == "" then none else some e
  | none => none

/-- `OrgInvitationService.accept_invitation`: token lookup, status
short-circuit, expiration transition (persisted before failing), email
resolution with identity-provider fallback, normalized email comparison,
already-member check, external provisioning (failure aborts with nothing
persisted), then membership insertion and the accepted transition. -/
def accept_invitation (db : DB) (c : AcceptCall) : Except InvErr InvRow × DB :=
  match findInvByToken db c.token with
  | none => (Except.error (InvErr.invalid "Invalid invitation token"), db)
  | some inv =>
    if inv.status != STATUS_PENDING then
      if inv.status == STATUS_ACCEPTED then
        (Except.error (InvErr.invalid "Invitation has already been accepted"), db)
      else if inv.status == STATUS_REVOKED then
        (Except.error (InvErr.invalid "Invitation has been revoked"), db)
      else
        (Except.error (InvErr.invalid "Invitation is no longer valid"), db)
    else if is_token_expired inv c.now then
      (Except.error (InvErr.expired "Invitation has expired"),
       (update_invitation_status db inv.id STATUS_EXPIRED none c.now).2)
    else
      match getUserById db c.userId with
      | none => (Except.error (InvErr.invalid "User not found"), db)
      | some user =>
        match (match truthyEmail user.email with
               | some e => some e
               | none => truthyEmail c.kcEmail) with
        | none =>
          (Except.error (InvErr.emailMismatch "Your account does not have an email address"), db)
        | some ue =>
          if normEmail ue != normEmail inv.email then
            (Except.error (InvErr.emailMismatch "Your email does not match the invitation"), db)
          else if (getOrgMember db inv.orgId c.userId).isSome then
            (Except.error (InvErr.alreadyMember "You are already a member of this organization"), db)
          else if !c.litellmOk then
            (Except.error (InvErr.invalid "Failed to set up organization access. Please try again."), db)
          else
            let db2 := add_user_to_org db inv.orgId c.userId inv.roleId "active"
            let upd := update_invitation_status db2 inv.id STATUS_ACCEPTED (some c.userId) c.now
            match upd.1 with
            | some inv2 => (Except.ok inv2, upd.2)
            | none => (Except.ok inv, upd.2)

/-- Errors raised by `OrgInvitationService.create_invitation`: Python
ValueError, InsufficientPermissionError and UserAlreadyMemberError. -/
inductive CreateErr where
  | valueErr (msg : String)
  | insufficientPermission (msg : String)
  | alreadyMember (msg : String)

deriving DecidableEq, Repr

/-- External inputs of one create_invitation call (besides the email):
org, requested role name, inviter, call time and whether the external
email dispatch would succeed. -/
structure CreateCall where
  orgId : Nat
  roleName : String
  inviterId : Nat
  now : Int
  emailOk : Bool

deriving DecidableEq, Repr

/-- Store lookup of an org by id (`OrgStore.get_org_by_id`). -/
def findOrg (db : DB) (o : Nat) : Option OrgRow :=
  db.orgs.find? (fun x => x.id == o)

/-- The shared validation sequence of invitation creation (steps 1-4 of
`create_invitation`, duplicated verbatim as the upfront gate of
`create_invitations_batch`): org exists, not a personal workspace,
inviter is a member with owner/admin role, owner-role restriction, and
requested role resolution. -/
def inviteGate (db : DB) (c : CreateCall) : Except CreateErr RoleRow :=
  match findOrg db c.orgId with
  | none => Except.error (CreateErr.valueErr ("Organization " ++ toString c.orgId ++ " not found"))
  | some _ =>
    if c.orgId == c.inviterId then
      Except.error (CreateErr.insufficientPermission "Cannot invite users to a personal workspace")
    else
      match getOrgMember db c.orgId c.inviterId with
      | none => Except.error (CreateErr.insufficientPermission "You are not a member of this organization")
      | some inviterMember =>
        match getRoleById db inviterMember.roleId with
        | none => Except.error (CreateErr.insufficientPermission "Only owners and admins can invite users")
        | some inviterRole =>
          if !(inviterRole.name == ROLE_OWNER || inviterRole.name == ROLE_ADMIN) then
            Except.error (CreateErr.insufficientPermission "Only owners and admins can invite users")
          else if lowerStr c.roleName == ROLE_OWNER && inviterRole.name != ROLE_OWNER then
            Except.error (CreateErr.insufficientPermission "Only owners can invite with owner role")
          else
            match getRoleByName db (lowerStr c.roleName) with
            | none => Except.error (CreateErr.valueErr ("Invalid role: " ++ c.roleName))
            | some targetRole => Except.ok targetRole

/-- `OrgInvitationStore.create_invitation`: build the row (normalizing the
email again at the store layer), stamp a 7-day expiration, persist with a
fresh id and token. -/
def store_create_invitation (db : DB) (orgId : Nat) (email : String)
    (roleId inviterId : Nat) (now : Int) : InvRow × DB :=
  let row : InvRow :=
    { id := db.nextInvId
    , token := invTokenOf db.nextInvId
    , orgId := orgId
    , email := normEmail email
    , roleId := roleId
    , inviterId := inviterId
    , status := STATUS_PENDING
    , expiresAt := now + DEFAULT_EXPIRATION_DAYS * dayMicros
    , acceptedAt := none
    , acceptedBy := none }
  (row, { db with invitations := db.invitations ++ [row], nextInvId := db.nextInvId + 1 })

/-- Outcome of the external email dispatch collaborator. -/
def sendEmailResult (ok : Bool) : Except String Unit :=
  if ok then Except.ok () else Except.error "email send failed"

/-- `OrgInvitationService.create_invitation`: normalize the email, run the
validation gate, reject an email that already belongs to a member, persist
the invitation, then attempt the notification email — a dispatch failure
is caught and discarded (the source logs and continues). -/
def create_invitation (db : DB) (c : CreateCall) (emailRaw : String) :
    Except CreateErr InvRow × DB :=
  match inviteGate db c with
  | Except.error e => (Except.error e, db)
  | Except.ok targetRole =>
    if (match getUserByEmail db (normEmail emailRaw) with
        | some u => (getOrgMember db c.orgId u.id).isSome
        | none => false) then
      (Except.error (CreateErr.alreadyMember "User is already a member of this organization"), db)
    else
      match sendEmailResult c.emailOk with
      | Except.ok _ =>
        (Except.ok (store_create_invitation db c.orgId (normEmail emailRaw)
           targetRole.id c.inviterId c.now).1,
         (store_create_invitation db c.orgId (normEmail emailRaw)
           targetRole.id c.inviterId c.now).2)
      | Except.error _ =>
        (Except.ok (store_create_invitation db c.orgId (normEmail emailRaw)
           targetRole.id c.inviterId c.now).1,
         (store_create_invitation db c.orgId (normEmail emailRaw)
           targetRole.id c.inviterId c.now).2)

/-- The per-email worker `create_single` of `create_invitations_batch`:
UserAlreadyMemberError and ValueError are converted into a recorded
failure; every other exception propagates. -/
def create_single (db : DB) (c : CreateCall) (email : String) :
    Except CreateErr (String × Option InvRow × Option String) × DB :=
  match create_invitation db c email with
  | (Except.ok inv, db1) => (Except.ok (email, some inv, none), db1)
  | (Except.error (CreateErr.alreadyMember m), db1) => (Except.ok (email, none, some m), db1)
  | (Except.error (CreateErr.valueErr m), db1) => (Except.ok (email, none, some m), db1)
  | (Except.error e, db1) => (Except.error e, db1)

/-- The fan-out over the batch's emails (the asyncio.gather of the
source): one create_single per email, an uncaught exception failing the
whole call with no result list. -/
def processEmails (db : DB) (c : CreateCall) (emails : List String) :
    Except CreateErr (List (String × Option InvRow × Option String)) × DB :=
  match emails with
  | [] => (Except.ok [], db)
  | e :: rest =>
    match create_single db c e with
    | (Except.error err, db1) => (Except.error err, db1)
    | (Except.ok r, db1) =>
      match processEmails db1 c rest with
      | (Except.error err, db2) => (Except.error err, db2)
      | (Except.ok rs, db2) => (Except.ok (r :: rs), db2)

/-- `OrgInvitationService.create_invitations_batch`: the shared gate runs
once up front, then the per-email workers run, and the outcomes are
separated into created invitations and (email, error) pairs. -/
def create_invitations_batch (db : DB) (c : CreateCall) (emails : List String) :
    Except CreateErr (List InvRow × List (String × String)) × DB :=
  match inviteGate db c with
  | Except.error e => (Except.error e, db)
  | Except.ok _ =>
    match processEmails db c emails with
    | (Except.error err, db1) => (Except.error err, db1)
    | (Except.ok results, db1) =>
      (Except.ok (results.filterMap (fun r => r.2.1),
                  results.filterMap (fun r => r.2.2.map (fun m => (r.1, m)))), db1)

/-- Observable steps of `OrgStore.delete_org_cascade`, in execution
order: the DELETE statement against one dependent table, the orphaned-user
check, the current-org reassignment, the membership and org row deletions,
the external LiteLLM teardown call, and the transaction commit or
rollback. -/
inductive DelEvent where
  | delRows (tableName : String)
  | orphanCheck
  | reassign
  | delMembers
  | delOrg
  | litellmCall
  | commitTx
  | rollbackTx

deriving DecidableEq, Repr

/-- Failure modes of `delete_org_cascade`: the OrphanedUserError naming
the users who would be left without an org, or a failing external
billing-team teardown. -/
inductive DeleteErr where
  | orphaned (userIds : List Nat)
  | litellmFailed

deriving DecidableEq, Repr

/-- The dependent tables cleared by steps 1-2 of `delete_org_cascade`, in
statement order. -/
def depTables : List String :=
  ["conversation_metadata", "app_conversation_start_task", "billing_sessions",
   "conversation_metadata_saas", "custom_secrets", "api_keys",
   "slack_conversation", "slack_users", "stripe_customers"]

/-- One staged DELETE statement against a dependent table. -/
def delDepTable (db : DB) (t : String) (o : Nat) : DB :=
  { db with depRows := db.depRows.filter (fun r => !(r.tableName == t && r.orgId == o)) }

/-- The staged session state after the dependent-table DELETE statements
(executed before the orphan check in the source). -/
def stageDependentDeletes (db : DB) (o : Nat) : DB :=
  depTables.foldl (fun d t => delDepTable d t o) db

/-- The orphaned-user query of `delete_org_cascade`: users whose current
org is the one being deleted and who hold no membership in any other
org. -/
def orphanedUserIds (db : DB) (o : Nat) : List Nat :=
  (db.users.filter (fun u => u.currentOrgId == some o &&
     !(db.members.any (fun m => m.userId == u.id && m.orgId != o)))).map (fun u => u.id)

/-- The batch UPDATE reassigning current_org_id to some alternative org
(NULL when none exists, which the preceding orphan check excludes). -/
def reassignCurrentOrg (db : DB) (o : Nat) : DB :=
  { db with users := db.users.map (fun u =>
      if u.currentOrgId == some o then
        { u with currentOrgId := (db.members.find? (fun m => m.userId == u.id && m.orgId != o)).map (fun m => m.orgId) }
      else u) }

/-- `OrgStore.delete_org_cascade`: inside one transaction, stage the
dependent-table deletions, run the orphan check (raising OrphanedUserError
and rolling back when it fires), reassign current-org pointers, delete the
membership rows and the org row, call the external LiteLLM teardown, and
commit only if everything succeeded; any failure rolls the staged state
back.  The returned trace records the execution order of the steps. -/
def delete_org_cascade (db : DB) (o : Nat) (litellmOk : Bool) :
    Except DeleteErr (Option OrgRow) × DB × List DelEvent :=
  match findOrg db o with
  | none => (Except.ok none, db, [])
  | some org =>
    let staged := stageDependentDeletes db o
    let ev := depTables.map DelEvent.delRows ++ [DelEvent.orphanCheck]
    let orphans := orphanedUserIds staged o
    if orphans.isEmpty then
      let staged2 := reassignCurrentOrg staged o
      let staged3 := { staged2 with members := staged2.members.filter (fun m => !(m.orgId == o)) }
      let staged4 := { staged3 with orgs := staged3.orgs.filter (fun x => !(x.id == o)) }
      let ev2 := ev ++ [DelEvent.reassign, DelEvent.delMembers, DelEvent.delOrg, DelEvent.litellmCall]
      if litellmOk then (Except.ok (some org), staged4, ev2 ++ [DelEvent.commitTx])
      else (Except.error DeleteErr.litellmFailed, db, ev2 ++ [DelEvent.rollbackTx])
    else
      (Except.error (DeleteErr.orphaned orphans), db, ev ++ [DelEvent.rollbackTx])

/-- Destructive row-deletion events of a deletion trace. -/
def isRowDelete (e : DelEvent) : Bool :=
  match e with
  | DelEvent.delRows _ => true
  | DelEvent.delMembers => true
  | DelEvent.delOrg => true
  | _ => false

/-- Whether the orphan check happens strictly before every destructive
row-deletion statement of a trace: no deletion event may precede the
first orphan check. -/
def checkBeforeAllRowDeletes (tr : List DelEvent) : Bool :=
  (tr.takeWhile (fun e => !(e == DelEvent.orphanCheck))).all (fun e => !isRowDelete e)

/-- Success test for Except results. -/
def isOkE {e a : Type} (x : Except e a) : Bool :=
  match x with
  | Except.ok _ => true
  | Except.error _ => false

/-- Well-formed invitation table: primary keys and tokens are unique. -/
def wfInvs (db : DB) : Prop :=
  (db.invitations.map (fun i => i.id)).Nodup ∧
  (db.invitations.map (fun i => i.token)).Nodup

/-- Well-formed database: membership keys, invitation ids and invitation
tokens are unique. -/
def wfDB (db : DB) : Prop := wfMembers db ∧ wfInvs db

instance (db : DB) : Decidable (wfInvs db) := by
  unfold wfInvs; infer_instance

instance (db : DB) : Decidable (wfDB db) := by
  unfold wfDB; infer_instance

/-- Number of successful acceptances of a given token along a sequence of
accept_invitation calls, each call running against the state the previous
one left. -/
def acceptSuccessCount (db : DB) : List AcceptCall → String → Nat
  | [], _ => 0
  | c :: rest, t =>
    (if c.token == t && isOkE (accept_invitation db c).1 then 1 else 0) +
      acceptSuccessCount (accept_invitation db c).2 rest t

/-- Concrete pending invitation for user alice in org 1. -/
def exInvPending : InvRow := ⟨7, "inv-7", 1, "alice@example.com", 3, 10, "pending", 1000, none, none⟩

/-- Concrete database with one pending invitation: org 1, owner 10,
invitee user 30 whose stored email differs from the invited one only in
case. -/
def exDbAcc : DB :=
  { orgs := [⟨1, "g"⟩]
  , users := [⟨10, some "own@x.com", some 1⟩, ⟨30, some "ALICE@example.com", some 1⟩]
  , roles := [roleOwner, roleAdmin, roleMember]
  , members := [⟨1, 10, 1, "active"⟩]
  , invitations := [exInvPending]
  , depRows := []
  , nextInvId := 8 }

/-- Concrete invitation in the terminal accepted status. -/
def exInvAccepted : InvRow :=
  ⟨9, "inv-9", 1, "bob@x.com", 3, 10, "accepted", 1000, some 50, some 40⟩

/-- Concrete database holding only the accepted invitation. -/
def exDbUpd : DB :=
  { orgs := [⟨1, "g"⟩]
  , users := []
  , roles := [roleOwner, roleAdmin, roleMember]
  , members := []
  , invitations := [exInvAccepted]
  , depRows := []
  , nextInvId := 10 }

/-- Concrete inviter call for the email-failure witness. -/
def exCallInvite : CreateCall := ⟨1, "member", 10, 0, true⟩

/-- Concrete database for invitation creation: org 1 with owner 10. -/
def exDbInvite : DB :=
  { orgs := [⟨1, "g"⟩]
  , users := [⟨10, some "own@x.com", some 1⟩]
  , roles := [roleOwner, roleAdmin, roleMember]
  , members := [⟨1, 10, 1, "active"⟩]
  , invitations := []
  , depRows := []
  , nextInvId := 1 }

/-- Concrete database for the round-trip witness: org 1, owner 10, and
user 30 whose stored email is an uppercase variant of the one invited. -/
def exDbRT : DB :=
  { orgs := [⟨1, "g"⟩]
  , users := [⟨10, some "own@x.com", some 1⟩, ⟨30, some "ALICE@example.com", some 1⟩]
  , roles := [roleOwner, roleAdmin, roleMember]
  , members := [⟨1, 10, 1, "active"⟩]
  , invitations := []
  , depRows := []
  , nextInvId := 1 }

/-- Concrete creation call for the round-trip witness. -/
def exCallRT : CreateCall := ⟨1, "member", 10, 0, true⟩

/-- Agreement of two database states on every table the invitation
validations read (orgs, users, roles, members): invitation creation only
appends invitation rows, so these stay fixed across a batch. -/
def SameCore (a b : DB) : Prop :=
  a.orgs = b.orgs ∧ a.users = b.users ∧ a.roles = b.roles ∧ a.members = b.members

/-- Error projection of a creation result. -/
def errOfC (x : Except CreateErr InvRow) : Option CreateErr :=
  match x with
  | Except.ok _ => none
  | Except.error e => some e

deriving instance DecidableEq for Except

/-- Concrete database for the batch witness: org 1 with owner 10 and
member 20 whose email is a@x.com. -/
def exDbBatch : DB :=
  { orgs := [⟨1, "g"⟩]
  , users := [⟨10, some "own@x.com", some 1⟩, ⟨20, some "a@x.com", some 1⟩]
  , roles := [roleOwner, roleAdmin, roleMember]
  , members := [⟨1, 10, 1, "active"⟩, ⟨1, 20, 3, "active"⟩]
  , invitations := []
  , depRows := []
  , nextInvId := 1 }

/-- Concrete database where the inviter holds no membership, so every
per-email validation raises InsufficientPermissionError. -/
def exDbNoMem : DB :=
  { orgs := [⟨1, "g"⟩]
  , users := [⟨10, some "own@x.com", some 1⟩]
  , roles := [roleOwner, roleAdmin, roleMember]
  , members := []
  , invitations := []
  , depRows := []
  , nextInvId := 1 }

/-- Concrete database for org deletion: org 77 is user 5's only org and
current org, and one billing row depends on the org. -/
def exDbDel : DB :=
  { orgs := [⟨77, "g"⟩]
  , users := [⟨5, some "u@x.com", some 77⟩]
  , roles := [roleOwner]
  , members := [⟨77, 5, 1, "active"⟩]
  , invitations := []
  , depRows := [⟨"billing_sessions", 77⟩]
  , nextInvId := 1 }

/-- Helper list lemma: in a list of membership rows whose (org, user) keys
are distinct, the find of a key held by a listed row returns that row. -/
theorem members_find_key_unique (l : List MemberRow) (o u : Nat) (m : MemberRow)
    (hnd : (l.map (fun x => (x.orgId, x.userId))).Nodup)
    (hm : m ∈ l) (ho : m.orgId = o) (hu : m.userId = u) :
    l.find? (fun x => x.orgId == o && x.userId == u) = some m := by
  induction l with
  | nil => cases hm
  | cons a t ih =>
    simp only [List.map_cons, List.nodup_cons] at hnd
    rcases List.mem_cons.mp hm with hma | hmt
    · subst hma
      have hp : (m.orgId == o && m.userId == u) = true := by simp [ho, hu]
      exact List.find?_cons_of_pos _ hp
    · cases hp : (a.orgId == o && a.userId == u) with
      | true =>
        exfalso
        simp only [Bool.and_eq_true, beq_iff_eq] at hp
        apply hnd.1
        have hmm : (m.orgId, m.userId) ∈ t.map (fun x => (x.orgId, x.userId)) :=
          List.mem_map_of_mem _ hmt
        rw [ho, hu] at hmm
        rw [hp.1, hp.2]
        exact hmm
      | false =>
        rw [List.find?_cons_of_neg _ (by simp [hp])]
        exact ih hnd.2 hmt

/-- Helper: what a successful membership lookup tells us. -/
theorem getOrgMember_eq_some {db : DB} {o u : Nat} {m : MemberRow}
    (h : getOrgMember db o u = some m) :
    m ∈ db.members ∧ m.orgId = o ∧ m.userId = u := by
  have hmem := List.mem_of_find?_eq_some h
  have hp := List.find?_some h
  simp only [Bool.and_eq_true, beq_iff_eq] at hp
  exact ⟨hmem, hp.1, hp.2⟩

/-- Helper: membership in the owner list of an org. -/
theorem mem_ownersOf {db : DB} {o : Nat} {m : MemberRow} :
    m ∈ ownersOf db o ↔ m ∈ db.members ∧ m.orgId = o ∧ isOwnerRank db m = true := by
  simp only [ownersOf, get_org_members, List.mem_filter, beq_iff_eq]
  tauto

/-- Helper: a well-formed lookup of a sole-owner org's owner. -/
theorem sole_owner_row {db : DB} {o t : Nat}
    (hsole : (ownersOf db o).map (fun m => m.userId) = [t]) :
    ∃ w, ownersOf db o = [w] ∧ w.userId = t := by
  cases hl : ownersOf db o with
  | nil => rw [hl] at hsole; simp at hsole
  | cons a l =>
    cases l with
    | nil =>
      rw [hl] at hsole
      simp only [List.map_cons, List.map_nil, List.cons.injEq, and_true] at hsole
      exact ⟨a, rfl, hsole⟩
    | cons b l2 => rw [hl] at hsole; simp at hsole

/-- Helper: unpacking the owner-rank predicate. -/
theorem isOwnerRank_eq_true {db : DB} {m : MemberRow} (h : isOwnerRank db m = true) :
    ∃ r, getRoleById db m.roleId = some r ∧ r.rank = OWNER_RANK := by
  unfold isOwnerRank at h
  cases heq : getRoleById db m.roleId with
  | none => rw [heq] at h; cases h
  | some r =>
    rw [heq] at h
    exact ⟨r, rfl, by simpa using h⟩

/-- Helper: the permission predicate against an owner-rank target passes
only for an owner-rank requester. -/
theorem can_remove_owner_iff (x : Nat) :
    can_remove_member x OWNER_RANK = (x == OWNER_RANK) := by
  unfold can_remove_member
  by_cases h1 : x = OWNER_RANK
  · simp [h1]
  · by_cases h2 : x = ADMIN_RANK
    · simp [h1, h2, OWNER_RANK, ADMIN_RANK]
    · simp [h1, h2]

/-- Helper: full analysis of `remove_org_member` when the target user is
the unique OWNER-rank member of the org.  Every call fails, leaves the
state unchanged, and never reports cannot_remove_last_owner: a caller
whose rank would permit removing an owner would itself be a second
owner-rank membership, contradicting uniqueness. -/
theorem sole_owner_remove_analysis (db : DB) (o t c : Nat)
    (hwf : wfMembers db)
    (hsole : (ownersOf db o).map (fun m => m.userId) = [t]) :
    (remove_org_member db o t c).1 = false ∧
    (remove_org_member db o t c).2.2 = db ∧
    (remove_org_member db o t c).2.1 ≠ some "cannot_remove_last_owner" ∧
    ((remove_org_member db o t c).2.1 = some "not_a_member" ∨
     (remove_org_member db o t c).2.1 = some "cannot_remove_self" ∨
     (remove_org_member db o t c).2.1 = some "role_not_found" ∨
     (remove_org_member db o t c).2.1 = some "insufficient_permission") := by
  obtain ⟨w, hw, hwu⟩ := sole_owner_row hsole
  have hwmem : w ∈ db.members ∧ w.orgId = o ∧ isOwnerRank db w = true := by
    apply mem_ownersOf.mp
    rw [hw]
    exact List.mem_singleton.mpr rfl
  have htgt : getOrgMember db o t = some w :=
    members_find_key_unique db.members o t w hwf hwmem.1 hwmem.2.1 hwu
  obtain ⟨wr, hwr, hwrk⟩ := isOwnerRank_eq_true hwmem.2.2
  cases hreq : getOrgMember db o c with
  | none => simp [remove_org_member, hreq]
  | some reqRow =>
    by_cases hct : c = t
    · subst hct
      simp [remove_org_member, hreq]
    · have hbct : (c == t) = false := by simp [hct]
      cases hreqr : getRoleById db reqRow.roleId with
      | none => simp [remove_org_member, hreq, hbct, htgt, hreqr, hwr]
      | some reqRole =>
        by_cases hrr : reqRole.rank = OWNER_RANK
        · exfalso
          have hrm := getOrgMember_eq_some hreq
          have : reqRow ∈ ownersOf db o := by
            apply mem_ownersOf.mpr
            refine ⟨hrm.1, hrm.2.1, ?_⟩
            unfold isOwnerRank
            rw [hreqr]
            simp [hrr]
          rw [hw] at this
          have hrw := List.mem_singleton.mp this
          exact hct (by rw [← hrm.2.2, hrw, hwu])
        · have hcan : can_remove_member reqRole.rank wr.rank = false := by
            rw [hwrk, can_remove_owner_iff]
            simp [hrr]
          simp [remove_org_member, hreq, hbct, htgt, hreqr, hwr, hcan]

/-- Helper: `remove_org_member` either fails leaving the state unchanged,
or succeeds, deleting exactly the target's membership rows, with the
requester a member whose resolved rank permits removing the target. -/
theorem remove_org_member_state (db : DB) (oq tq cq : Nat) :
    ((remove_org_member db oq tq cq).1 = false ∧ (remove_org_member db oq tq cq).2.2 = db) ∨
    ((remove_org_member db oq tq cq).1 = true ∧
     (remove_org_member db oq tq cq).2.2 = removedState db oq tq ∧
     ∃ reqRow reqRole tgtRow tgtRole,
       getOrgMember db oq cq = some reqRow ∧ cq ≠ tq ∧
       getOrgMember db oq tq = some tgtRow ∧
       getRoleById db reqRow.roleId = some reqRole ∧
       getRoleById db tgtRow.roleId = some tgtRole ∧
       can_remove_member reqRole.rank tgtRole.rank = true) := by
  cases hreq : getOrgMember db oq cq with
  | none => left; simp [remove_org_member, hreq]
  | some reqRow =>
    by_cases hct : cq = tq
    · left; subst hct; simp [remove_org_member, hreq]
    · have hbct : (cq == tq) = false := by simp [hct]
      cases htgt : getOrgMember db oq tq with
      | none => left; simp [remove_org_member, hreq, hbct, htgt]
      | some tgtRow =>
        cases hreqr : getRoleById db reqRow.roleId with
        | none => left; simp [remove_org_member, hreq, hbct, htgt, hreqr]
        | some reqRole =>
          cases htgtr : getRoleById db tgtRow.roleId with
          | none => left; simp [remove_org_member, hreq, hbct, htgt, hreqr, htgtr]
          | some tgtRole =>
            by_cases hcan : can_remove_member reqRole.rank tgtRole.rank = true
            · by_cases hlast : (tgtRole.rank == OWNER_RANK && is_last_owner db oq tq) = true
              · left
                simp [remove_org_member, hreq, hbct, htgt, hreqr, htgtr, hcan, hlast]
              · have hrufo : remove_user_from_org db oq tq = (true, removedState db oq tq) := by
                  simp [remove_user_from_org, removedState, htgt]
                have hmain : remove_org_member db oq tq cq = (true, none, removedState db oq tq) := by
                  simp [remove_org_member, hreq, hbct, htgt, hreqr, htgtr, hcan, hlast, hrufo]
                right
                refine ⟨?_, ?_, reqRow, reqRole, tgtRow, tgtRole,
                  rfl, hct, rfl, hreqr, htgtr, hcan⟩
                · rw [hmain]
                · rw [hmain]
            · left; simp [remove_org_member, hreq, hbct, htgt, hreqr, htgtr, hcan]

/-- Helper: removal preserves well-formedness of the membership table. -/
theorem wfMembers_remove (db : DB) (hwf : wfMembers db) (oq tq cq : Nat) :
    wfMembers (remove_org_member db oq tq cq).2.2 := by
  rcases remove_org_member_state db oq tq cq with ⟨_, h⟩ | ⟨_, h, _⟩
  · rw [h]; exact hwf
  · rw [h]
    unfold wfMembers removedState at *
    exact List.Nodup.sublist ((List.filter_sublist _).map _) hwf

/-- Helper: membership in the owner set after the store removal. -/
theorem mem_ownersOf_removedState {db : DB} {oq tq o : Nat} {m : MemberRow} :
    m ∈ ownersOf (removedState db oq tq) o ↔
      (m ∈ db.members ∧ (!(m.orgId == oq && m.userId == tq)) = true) ∧
        m.orgId = o ∧ isOwnerRank db m = true := by
  rw [mem_ownersOf]
  constructor
  · rintro ⟨hmf, h2, h3⟩
    exact ⟨List.mem_filter.mp hmf, h2, h3⟩
  · rintro ⟨⟨h1, h2⟩, h3, h4⟩
    exact ⟨List.mem_filter.mpr ⟨h1, h2⟩, h3, h4⟩

/-- Helper: a single `remove_org_member` call never empties a non-empty
owner set: whenever the removal of an owner-rank target is permitted, the
requester's own owner-rank membership survives it. -/
theorem owners_survive_remove (db : DB) (hwf : wfMembers db) (oq tq cq o : Nat)
    (hne : ownersOf db o ≠ []) :
    ownersOf (remove_org_member db oq tq cq).2.2 o ≠ [] := by
  rcases remove_org_member_state db oq tq cq with ⟨_, h⟩ |
    ⟨_, h, reqRow, reqRole, tgtRow, tgtRole, hreq, hct, htgt, hreqr, htgtr, hcan⟩
  · rw [h]; exact hne
  · rw [h]
    by_cases hoo : o = oq
    · subst hoo
      by_cases htr : tgtRole.rank = OWNER_RANK
      · have hcan2 : reqRole.rank = OWNER_RANK := by
          rw [htr, can_remove_owner_iff] at hcan
          simpa using hcan
        have hrm := getOrgMember_eq_some hreq
        have hpreq : (!(reqRow.orgId == o && reqRow.userId == tq)) = true := by
          simp [hrm.2.2, hct]
        refine List.ne_nil_of_mem (mem_ownersOf_removedState.mpr ⟨⟨hrm.1, hpreq⟩, hrm.2.1, ?_⟩)
        unfold isOwnerRank
        rw [hreqr]
        simp [hcan2]
      · obtain ⟨w, hwmem⟩ := List.exists_mem_of_ne_nil _ hne
        have hw := mem_ownersOf.mp hwmem
        by_cases hwt : w.userId = tq
        · exfalso
          have hfw : getOrgMember db o tq = some w :=
            members_find_key_unique _ _ _ _ hwf hw.1 hw.2.1 hwt
          rw [htgt] at hfw
          have hwe : tgtRow = w := by injection hfw
          obtain ⟨r, hr, hrk⟩ := isOwnerRank_eq_true (hwe ▸ hw.2.2)
          rw [htgtr] at hr
          injection hr with hr
          exact htr (hr ▸ hrk)
        · exact List.ne_nil_of_mem
            (mem_ownersOf_removedState.mpr ⟨⟨hw.1, by simp [hwt]⟩, hw.2.1, hw.2.2⟩)
    · obtain ⟨w, hwmem⟩ := List.exists_mem_of_ne_nil _ hne
      have hw := mem_ownersOf.mp hwmem
      have hpw : (!(w.orgId == oq && w.userId == tq)) = true := by
        simp [hw.2.1, hoo]
      exact List.ne_nil_of_mem
        (mem_ownersOf_removedState.mpr ⟨⟨hw.1, hpw⟩, hw.2.1, hw.2.2⟩)

/-- Helper: owner-set non-emptiness is preserved along any sequence of
removal requests. -/
theorem owners_nonempty_removeFold (reqs : List RemReq) :
    ∀ db o, wfMembers db → ownersOf db o ≠ [] →
      ownersOf (removeFold db reqs) o ≠ [] := by
  induction reqs with
  | nil => intro db o _ h; exact h
  | cons r rs ih =>
    intro db o hwf hne
    have h1 := owners_survive_remove db hwf r.orgId r.targetId r.currentId o hne
    have h2 := wfMembers_remove db hwf r.orgId r.targetId r.currentId
    exact ih _ o h2 h1

/-- C1: for every organization, no sequence of remove_org_member calls can
reduce the set of OWNER-rank memberships from non-empty to empty, and
whenever the target of a removal is the only OWNER-rank member of the org
the removal is refused with the membership state unchanged. -/
theorem owner_set_never_emptied_by_removals (db : DB) (o : Nat) (reqs : List RemReq)
    (hwf : wfMembers db) :
    (ownersOf db o ≠ [] → ownersOf (removeFold db reqs) o ≠ []) ∧
    (∀ t c, (ownersOf db o).map (fun m => m.userId) = [t] →
      (remove_org_member db o t c).1 = false ∧
      (remove_org_member db o t c).2.2 = db) := by
  refine ⟨fun hne => owners_nonempty_removeFold reqs db o hwf hne, fun t c hsole => ?_⟩
  have h := sole_owner_remove_analysis db o t c hwf hsole
  exact ⟨h.1, h.2.1⟩

/-- Witness for C1 at a concrete state: org 1 of exDb1 has one owner, a
removal sequence (admin tries to remove the owner, owner removes the
member) leaves the owner set non-empty, and removing the sole owner is
refused without a state change. -/
theorem owner_set_never_emptied_by_removals_witness :
    ownersOf (removeFold exDb1 [⟨1, 2, 3⟩, ⟨1, 3, 2⟩]) 1 ≠ [] ∧
    (remove_org_member exDb1 1 2 3).1 = false ∧
    (remove_org_member exDb1 1 2 3).2.2 = exDb1 := by
  have h := owner_set_never_emptied_by_removals exDb1 1 [⟨1, 2, 3⟩, ⟨1, 3, 2⟩] (by decide)
  have h2 := h.2 2 3 (by decide)
  exact ⟨h.1 (by decide), h2.1, h2.2⟩

/-- C2 counterexample: in exDb1 org 1 has exactly one OWNER-rank member
(user 2), yet the member-rank caller 3 calling remove_org_member on the
owner gets insufficient_permission, not cannot_remove_last_owner — the
claim that every caller fails with cannot_remove_last_owner is false. -/
theorem sole_owner_error_code_cex :
    (ownersOf exDb1 1).map (fun m => m.userId) = [2] ∧
    remove_org_member exDb1 1 2 3 = (false, some "insufficient_permission", exDb1) ∧
    (remove_org_member exDb1 1 2 3).2.1 ≠ some "cannot_remove_last_owner" := by
  decide

/-- C2 (amended): for every org with exactly one OWNER-rank member O and a
well-formed membership table, remove_org_member on target O fails for
every caller and leaves the state unchanged, but the error code depends on
the caller (not_a_member, cannot_remove_self, role_not_found or
insufficient_permission) and is never cannot_remove_last_owner: a caller
whose rank could remove an owner would itself be a second owner. -/
theorem sole_owner_removal_always_fails (db : DB) (o t c : Nat)
    (hwf : wfMembers db)
    (hsole : (ownersOf db o).map (fun m => m.userId) = [t]) :
    (remove_org_member db o t c).1 = false ∧
    (remove_org_member db o t c).2.2 = db ∧
    (remove_org_member db o t c).2.1 ≠ some "cannot_remove_last_owner" ∧
    ((remove_org_member db o t c).2.1 = some "not_a_member" ∨
     (remove_org_member db o t c).2.1 = some "cannot_remove_self" ∨
     (remove_org_member db o t c).2.1 = some "role_not_found" ∨
     (remove_org_member db o t c).2.1 = some "insufficient_permission") :=
  sole_owner_remove_analysis db o t c hwf hsole

/-- Witness for C2 (amended) at the concrete state exDb1 with caller 3. -/
theorem sole_owner_removal_always_fails_witness :
    (remove_org_member exDb1 1 2 3).1 = false ∧
    (remove_org_member exDb1 1 2 3).2.2 = exDb1 ∧
    (remove_org_member exDb1 1 2 3).2.1 ≠ some "cannot_remove_last_owner" := by
  have h := sole_owner_removal_always_fails exDb1 1 2 3 (by decide) (by decide)
  exact ⟨h.1, h.2.1, h.2.2.1⟩

/-- Helper: the row update of the store preserves id and token and writes
the requested status. -/
theorem setStatusRow_fields (st : String) (ab : Option Nat) (now : Int) (i : InvRow) :
    (setStatusRow st ab now i).id = i.id ∧ (setStatusRow st ab now i).token = i.token ∧
    (setStatusRow st ab now i).status = st := by
  unfold setStatusRow
  split <;> simp

/-- Helper: find over a cons whose head matches. -/
theorem find?_cons_pos {a : Type} (p : a → Bool) (x : a) (l : List a) (h : p x = true) :
    (x :: l).find? p = some x := by
  simp [List.find?, h]

/-- Helper: find over a cons whose head does not match. -/
theorem find?_cons_neg {a : Type} (p : a → Bool) (x : a) (l : List a) (h : p x = false) :
    (x :: l).find? p = l.find? p := by
  simp [List.find?, h]

/-- Helper: updating the first row with a given id rewrites exactly the
row that a find-by-id located. -/
theorem updateFirstInv_find_id (l : List InvRow) (k : Nat) (f : InvRow → InvRow)
    (hf : ∀ i, (f i).id = i.id) (inv : InvRow)
    (h : l.find? (fun i => i.id == k) = some inv) :
    (updateFirstInv l k f).find? (fun i => i.id == k) = some (f inv) := by
  induction l with
  | nil => simp [List.find?] at h
  | cons r rest ih =>
    cases hr : (r.id == k) with
    | true =>
      rw [find?_cons_pos (fun i => i.id == k) r rest hr] at h
      injection h with h
      subst h
      unfold updateFirstInv
      rw [if_pos hr]
      have hfr : ((f r).id == k) = true := by rw [hf r]; exact hr
      rw [find?_cons_pos (fun i => i.id == k) (f r) rest hfr]
    | false =>
      rw [find?_cons_neg (fun i => i.id == k) r rest hr] at h
      unfold updateFirstInv
      rw [if_neg (by simp [hr])]
      rw [find?_cons_neg (fun i => i.id == k) r _ hr]
      exact ih h

/-- Helper: in a list of invitation rows with distinct ids, the find of a
listed row's id returns that row. -/
theorem invs_find_id_unique (l : List InvRow)
    (hids : (l.map (fun i => i.id)).Nodup) (inv : InvRow) (hm : inv ∈ l) :
    l.find? (fun i => i.id == inv.id) = some inv := by
  induction l with
  | nil => cases hm
  | cons r rest ih =>
    simp only [List.map_cons, List.nodup_cons] at hids
    rcases List.mem_cons.mp hm with hh | ht
    · subst hh
      exact find?_cons_pos (fun i => i.id == inv.id) inv rest (by simp)
    · cases hr : (r.id == inv.id) with
      | true =>
        exfalso
        apply hids.1
        have hik : r.id = inv.id := beq_iff_eq.mp hr
        rw [hik]
        exact List.mem_map_of_mem _ ht
      | false =>
        rw [find?_cons_neg (fun i => i.id == inv.id) r rest hr]
        exact ih hids.2 ht

/-- Helper: distinct ids make rows with equal ids equal. -/
theorem inv_eq_of_id (l : List InvRow)
    (hids : (l.map (fun i => i.id)).Nodup) {a b : InvRow}
    (ha : a ∈ l) (hb : b ∈ l) (h : a.id = b.id) : a = b := by
  have h1 := invs_find_id_unique l hids a ha
  have h2 := invs_find_id_unique l hids b hb
  rw [h] at h1
  rw [h1] at h2
  injection h2

/-- Helper: updating the first row with an id different from the one a
find-by-token located leaves that find untouched, provided the update
preserves tokens. -/
theorem updateFirstInv_find_token_other (l : List InvRow) (k : Nat) (f : InvRow → InvRow)
    (hf : ∀ i, (f i).token = i.token) (t : String) (invT : InvRow)
    (h : l.find? (fun i => i.token == t) = some invT) (hne : k ≠ invT.id) :
    (updateFirstInv l k f).find? (fun i => i.token == t) = some invT := by
  induction l with
  | nil => simp [List.find?] at h
  | cons r rest ih =>
    cases hr : (r.token == t) with
    | true =>
      rw [find?_cons_pos (fun i => i.token == t) r rest hr] at h
      injection h with h
      subst h
      unfold updateFirstInv
      cases hk : (r.id == k) with
      | true =>
        exfalso
        exact hne ((beq_iff_eq.mp hk).symm)
      | false =>
        rw [if_neg (by simp [hk])]
        exact find?_cons_pos (fun i => i.token == t) r _ hr
    | false =>
      rw [find?_cons_neg (fun i => i.token == t) r rest hr] at h
      unfold updateFirstInv
      cases hk : (r.id == k) with
      | true =>
        rw [if_pos rfl]
        have hfr : ((f r).token == t) = false := by rw [hf r]; exact hr
        rw [find?_cons_neg (fun i => i.token == t) (f r) rest hfr]
        exact h
      | false =>
        rw [if_neg (by simp [hk])]
        rw [find?_cons_neg (fun i => i.token == t) r _ hr]
        exact ih h

/-- Helper: updating at the id of the row a find-by-token located rewrites
exactly that row, provided ids are distinct and the update preserves ids
and tokens. -/
theorem updateFirstInv_find_token_self (l : List InvRow) (f : InvRow → InvRow)
    (hfi : ∀ i, (f i).id = i.id) (hft : ∀ i, (f i).token = i.token)
    (t : String) (inv : InvRow)
    (hids : (l.map (fun i => i.id)).Nodup)
    (h : l.find? (fun i => i.token == t) = some inv) :
    (updateFirstInv l inv.id f).find? (fun i => i.token == t) = some (f inv) := by
  induction l with
  | nil => simp [List.find?] at h
  | cons r rest ih =>
    simp only [List.map_cons, List.nodup_cons] at hids
    cases hr : (r.token == t) with
    | true =>
      rw [find?_cons_pos (fun i => i.token == t) r rest hr] at h
      injection h with h
      subst h
      unfold updateFirstInv
      rw [if_pos (by simp)]
      have hfr : ((f r).token == t) = true := by rw [hft r]; exact hr
      exact find?_cons_pos (fun i => i.token == t) (f r) rest hfr
    | false =>
      rw [find?_cons_neg (fun i => i.token == t) r rest hr] at h
      have hmem : inv ∈ rest := List.mem_of_find?_eq_some h
      have hne : (r.id == inv.id) = false := by
        cases hrk : (r.id == inv.id) with
        | true =>
          exfalso
          apply hids.1
          rw [beq_iff_eq.mp hrk]
          exact List.mem_map_of_mem _ hmem
        | false => rfl
      unfold updateFirstInv
      rw [if_neg (by simp [hne])]
      rw [find?_cons_neg (fun i => i.token == t) r _ hr]
      exact ih hids.2 h

/-- Helper: the first-row update preserves the id column. -/
theorem updateFirstInv_map_id (l : List InvRow) (k : Nat) (f : InvRow → InvRow)
    (hf : ∀ i, (f i).id = i.id) :
    (updateFirstInv l k f).map (fun i => i.id) = l.map (fun i => i.id) := by
  induction l with
  | nil => rfl
  | cons r rest ih =>
    unfold updateFirstInv
    by_cases hk : (r.id == k) = true
    · rw [if_pos hk]
      simp [hf r]
    · rw [if_neg hk]
      simp [ih]

/-- Helper: the first-row update preserves the token column. -/
theorem updateFirstInv_map_token (l : List InvRow) (k : Nat) (f : InvRow → InvRow)
    (hf : ∀ i, (f i).token = i.token) :
    (updateFirstInv l k f).map (fun i => i.token) = l.map (fun i => i.token) := by
  induction l with
  | nil => rfl
  | cons r rest ih =>
    unfold updateFirstInv
    by_cases hk : (r.id == k) = true
    · rw [if_pos hk]
      simp [hf r]
    · rw [if_neg hk]
      simp [ih]

/-- Helper: the status update touches only the invitation table, and
preserves its id and token columns. -/
theorem update_inv_status_state (db : DB) (k : Nat) (st : String)
    (ab : Option Nat) (now : Int) :
    (update_invitation_status db k st ab now).2.members = db.members ∧
    (update_invitation_status db k st ab now).2.orgs = db.orgs ∧
    (update_invitation_status db k st ab now).2.users = db.users ∧
    (update_invitation_status db k st ab now).2.roles = db.roles ∧
    (update_invitation_status db k st ab now).2.invitations.map (fun i => i.id) =
      db.invitations.map (fun i => i.id) ∧
    (update_invitation_status db k st ab now).2.invitations.map (fun i => i.token) =
      db.invitations.map (fun i => i.token) := by
  unfold update_invitation_status
  cases hfi : findInvById db k with
  | none => exact ⟨rfl, rfl, rfl, rfl, rfl, rfl⟩
  | some inv =>
    refine ⟨rfl, rfl, rfl, rfl, ?_, ?_⟩
    · exact updateFirstInv_map_id _ _ _ (fun i => (setStatusRow_fields st ab now i).1)
    · exact updateFirstInv_map_token _ _ _ (fun i => (setStatusRow_fields st ab now i).2.1)

/-- Helper: complete branch analysis of `accept_invitation`: either it
fails leaving the state unchanged, or it persists the expired transition
and fails, or it succeeds, inserting the membership and persisting the
accepted transition. -/
theorem accept_invitation_state (db : DB) (c : AcceptCall) :
    (isOkE (accept_invitation db c).1 = false ∧ (accept_invitation db c).2 = db) ∨
    (∃ inv, findInvByToken db c.token = some inv ∧ inv.status = STATUS_PENDING ∧
      is_token_expired inv c.now = true ∧
      (accept_invitation db c).1 = Except.error (InvErr.expired "Invitation has expired") ∧
      (accept_invitation db c).2 =
        (update_invitation_status db inv.id STATUS_EXPIRED none c.now).2) ∨
    (∃ inv, findInvByToken db c.token = some inv ∧ inv.status = STATUS_PENDING ∧
      is_token_expired inv c.now = false ∧
      getOrgMember db inv.orgId c.userId = none ∧
      isOkE (accept_invitation db c).1 = true ∧
      (accept_invitation db c).2 =
        (update_invitation_status (add_user_to_org db inv.orgId c.userId inv.roleId "active")
          inv.id STATUS_ACCEPTED (some c.userId) c.now).2) := by
  cases hf : findInvByToken db c.token with
  | none => left; simp [accept_invitation, hf, isOkE]
  | some inv =>
    by_cases hp : inv.status = STATUS_PENDING
    · by_cases hex : is_token_expired inv c.now = true
      · right; left
        refine ⟨inv, rfl, hp, hex, ?_, ?_⟩ <;>
          simp [accept_invitation, hf, hp, hex]
      · cases hu : getUserById db c.userId with
        | none =>
          left
          simp [accept_invitation, hf, hp, hex, hu, isOkE]
        | some user =>
          cases hte : (match truthyEmail user.email with
                       | some e => some e
                       | none => truthyEmail c.kcEmail) with
          | none =>
            left
            simp [accept_invitation, hf, hp, hex, hu, hte, isOkE]
          | some ue =>
            by_cases hm : (normEmail ue != normEmail inv.email) = true
            · left
              simp [accept_invitation, hf, hp, hex, hu, hte, hm, isOkE]
            · cases hgm : getOrgMember db inv.orgId c.userId with
              | some mrow =>
                left
                simp [accept_invitation, hf, hp, hex, hu, hte, hm, hgm, isOkE]
              | none =>
                by_cases hl : c.litellmOk = true
                · right; right
                  refine ⟨inv, rfl, hp, by simpa using hex, ?_, ?_, ?_⟩
                  · exact hgm
                  · simp only [accept_invitation, hf, hp, hex, hu, hte, hm, hgm, hl]
                    simp [isOkE]
                    cases (update_invitation_status
                        (add_user_to_org db inv.orgId c.userId inv.roleId "active")
                        inv.id STATUS_ACCEPTED (some c.userId) c.now).1 <;> simp [isOkE]
                  · simp only [accept_invitation, hf, hp, hex, hu, hte, hm, hgm, hl]
                    cases (update_invitation_status
                        (add_user_to_org db inv.orgId c.userId inv.roleId "active")
                        inv.id STATUS_ACCEPTED (some c.userId) c.now).1 <;> simp
                · left
                  simp [accept_invitation, hf, hp, hex, hu, hte, hm, hgm, hl, isOkE]
    · left
      by_cases ha : inv.status = STATUS_ACCEPTED
      · simp [accept_invitation, hf, hp, ha, isOkE,
          STATUS_PENDING, STATUS_ACCEPTED, STATUS_REVOKED]
      · by_cases hr : inv.status = STATUS_REVOKED
        · simp [accept_invitation, hf, hp, ha, hr, isOkE,
            STATUS_PENDING, STATUS_ACCEPTED, STATUS_REVOKED]
        · simp [accept_invitation, hf, hp, ha, hr, isOkE]

/-- Helper: adding a membership that the unique-key lookup reported absent
preserves well-formedness of the membership table. -/
theorem wfMembers_add (db : DB) (hwf : wfMembers db) (o u rid : Nat) (st : String)
    (hnone : getOrgMember db o u = none) :
    wfMembers (add_user_to_org db o u rid st) := by
  unfold wfMembers add_user_to_org
  rw [List.map_append, List.nodup_append]
  refine ⟨hwf, by simp, ?_⟩
  intro a ha hb
  simp only [List.map_cons, List.map_nil, List.mem_singleton] at hb
  subst hb
  obtain ⟨m, hm, hkey⟩ := List.mem_map.mp ha
  have h1 : m.orgId = o := congrArg Prod.fst hkey
  have h2 : m.userId = u := congrArg Prod.snd hkey
  have hfind := members_find_key_unique db.members o u m hwf hm h1 h2
  unfold getOrgMember at hnone
  rw [hfind] at hnone
  cases hnone

/-- Helper: the status update preserves invitation-table
well-formedness. -/
theorem wfInvs_update (db : DB) (hwf : wfInvs db) (k : Nat) (st : String)
    (ab : Option Nat) (now : Int) :
    wfInvs (update_invitation_status db k st ab now).2 := by
  have h := update_inv_status_state db k st ab now
  unfold wfInvs at *
  rw [h.2.2.2.2.1, h.2.2.2.2.2]
  exact hwf

/-- Helper: accept_invitation preserves database well-formedness. -/
theorem wfDB_accept (db : DB) (hwf : wfDB db) (c : AcceptCall) :
    wfDB (accept_invitation db c).2 := by
  rcases accept_invitation_state db c with ⟨_, h⟩ | ⟨inv, hf, hp, hex, _, h⟩ |
    ⟨inv, hf, hp, hex, hgm, _, h⟩
  · rw [h]; exact hwf
  · rw [h]
    have hu := update_inv_status_state db inv.id STATUS_EXPIRED none c.now
    exact ⟨by unfold wfMembers; rw [hu.1]; exact hwf.1,
           wfInvs_update db hwf.2 _ _ _ _⟩
  · rw [h]
    have hwf2 : wfDB (add_user_to_org db inv.orgId c.userId inv.roleId "active") :=
      ⟨wfMembers_add db hwf.1 _ _ inv.roleId "active" hgm, hwf.2⟩
    have hu := update_inv_status_state (add_user_to_org db inv.orgId c.userId inv.roleId "active")
      inv.id STATUS_ACCEPTED (some c.userId) c.now
    exact ⟨by unfold wfMembers; rw [hu.1]; exact hwf2.1,
           wfInvs_update _ hwf2.2 _ _ _ _⟩

/-- Helper: unpacking a status read. -/
theorem statusByToken_some {db : DB} {t s : String} (h : statusByToken db t = some s) :
    ∃ inv, findInvByToken db t = some inv ∧ inv.status = s := by
  unfold statusByToken at h
  cases hf : findInvByToken db t with
  | none => rw [hf] at h; cases h
  | some inv =>
    rw [hf] at h
    simp only [Option.map_some'] at h
    exact ⟨inv, rfl, by injection h⟩

/-- Helper: after the status update at the id of the row found by token,
the token reads back the new status. -/
theorem update_inv_statusByToken (db : DB)
    (hids : (db.invitations.map (fun i => i.id)).Nodup)
    (t : String) (inv : InvRow) (hf : findInvByToken db t = some inv)
    (st : String) (ab : Option Nat) (now : Int) :
    statusByToken (update_invitation_status db inv.id st ab now).2 t = some st := by
  unfold update_invitation_status
  have hfind2 : findInvById db inv.id = some inv :=
    invs_find_id_unique _ hids inv (List.mem_of_find?_eq_some hf)
  rw [hfind2]
  unfold statusByToken findInvByToken
  show ((updateFirstInv db.invitations inv.id (setStatusRow st ab now)).find?
    (fun i => i.token == t)).map (fun i => i.status) = some st
  rw [updateFirstInv_find_token_self db.invitations _
    (fun i => (setStatusRow_fields st ab now i).1)
    (fun i => (setStatusRow_fields st ab now i).2.1) t inv hids hf]
  simp [(setStatusRow_fields st ab now inv).2.2]

/-- Helper: the status update at a different id leaves a token's status
untouched. -/
theorem update_inv_statusByToken_other (db : DB) (t : String) (invT : InvRow)
    (hf : findInvByToken db t = some invT) (k : Nat) (hne : k ≠ invT.id)
    (st : String) (ab : Option Nat) (now : Int) :
    statusByToken (update_invitation_status db k st ab now).2 t = some invT.status := by
  unfold update_invitation_status
  cases hfi : findInvById db k with
  | none => simp [statusByToken, hf]
  | some invK =>
    unfold statusByToken findInvByToken
    show ((updateFirstInv db.invitations k (setStatusRow st ab now)).find?
      (fun i => i.token == t)).map (fun i => i.status) = some invT.status
    rw [updateFirstInv_find_token_other db.invitations k _
      (fun i => (setStatusRow_fields st ab now i).2.1) t invT hf hne]
    simp

/-- Helper: a call on an already-accepted invitation short-circuits with
the already-accepted error and no state change. -/
theorem accept_on_accepted (db : DB) (c : AcceptCall) (inv : InvRow)
    (hf : findInvByToken db c.token = some inv)
    (hacc : inv.status = STATUS_ACCEPTED) :
    accept_invitation db c =
      (Except.error (InvErr.invalid "Invitation has already been accepted"), db) := by
  simp [accept_invitation, hf, hacc, STATUS_PENDING, STATUS_ACCEPTED]

/-- Helper: a successful acceptance leaves the token's invitation in the
accepted status. -/
theorem accept_success_status (db : DB) (hwf : wfDB db) (c : AcceptCall)
    (hok : isOkE (accept_invitation db c).1 = true) :
    statusByToken (accept_invitation db c).2 c.token = some STATUS_ACCEPTED := by
  rcases accept_invitation_state db c with ⟨hfalse, _⟩ | ⟨inv, hf, hp, hex, herr, _⟩ |
    ⟨inv, hf, hp, hex, hgm, _, h2⟩
  · rw [hok] at hfalse; cases hfalse
  · have : isOkE (accept_invitation db c).1 = false := by rw [herr]; rfl
    rw [hok] at this; cases this
  · rw [h2]
    exact update_inv_statusByToken (add_user_to_org db inv.orgId c.userId inv.roleId "active")
      hwf.2.1 c.token inv hf STATUS_ACCEPTED (some c.userId) c.now

/-- Helper: once a token's invitation is accepted, no accept call moves it
out of the accepted status. -/
theorem accepted_preserved (db : DB) (hwf : wfDB db) (t : String)
    (hst : statusByToken db t = some STATUS_ACCEPTED) (c : AcceptCall) :
    statusByToken (accept_invitation db c).2 t = some STATUS_ACCEPTED := by
  obtain ⟨invT, hfT, hsT⟩ := statusByToken_some hst
  rcases accept_invitation_state db c with ⟨_, h⟩ | ⟨inv, hf, hp, hex, _, h⟩ |
    ⟨inv, hf, hp, hex, hgm, _, h⟩
  · rw [h]; exact hst
  · have hneinv : inv ≠ invT := by
      intro he
      rw [he, hsT] at hp
      exact absurd hp (by decide)
    have hneid : inv.id ≠ invT.id := by
      intro he
      exact hneinv (inv_eq_of_id db.invitations hwf.2.1
        (List.mem_of_find?_eq_some hf) (List.mem_of_find?_eq_some hfT) he)
    have hother := update_inv_statusByToken_other db t invT hfT inv.id hneid
      STATUS_EXPIRED none c.now
    rw [h, hother, hsT]
  · have hneinv : inv ≠ invT := by
      intro he
      rw [he, hsT] at hp
      exact absurd hp (by decide)
    have hneid : inv.id ≠ invT.id := by
      intro he
      exact hneinv (inv_eq_of_id db.invitations hwf.2.1
        (List.mem_of_find?_eq_some hf) (List.mem_of_find?_eq_some hfT) he)
    have hother := update_inv_statusByToken_other
      (add_user_to_org db inv.orgId c.userId inv.roleId "active") t invT hfT inv.id hneid
      STATUS_ACCEPTED (some c.userId) c.now
    rw [h, hother, hsT]

/-- Helper: no acceptance of a token succeeds once its invitation is
accepted. -/
theorem count_zero_of_accepted (calls : List AcceptCall) :
    ∀ db t, wfDB db → statusByToken db t = some STATUS_ACCEPTED →
      acceptSuccessCount db calls t = 0 := by
  induction calls with
  | nil => intro db t _ _; rfl
  | cons c rest ih =>
    intro db t hwf hst
    have hwf' := wfDB_accept db hwf c
    have hst' := accepted_preserved db hwf t hst c
    unfold acceptSuccessCount
    by_cases hct : (c.token == t) = true
    · obtain ⟨invT, hfT, hsT⟩ := statusByToken_some hst
      have hco := accept_on_accepted db c invT (by rw [beq_iff_eq.mp hct]; exact hfT) hsT
      rw [hco]
      simp only [isOkE, Bool.and_false]
      rw [if_neg (by simp)]
      simp only [Nat.zero_add]
      exact ih db t hwf hst
    · rw [if_neg (by simp [hct])]
      simp only [Nat.zero_add]
      exact ih _ t hwf' hst'

/-- Helper: at most one acceptance of a token succeeds along any call
sequence. -/
theorem count_le_one (calls : List AcceptCall) :
    ∀ db t, wfDB db → acceptSuccessCount db calls t ≤ 1 := by
  induction calls with
  | nil => intro db t _; exact Nat.zero_le 1
  | cons c rest ih =>
    intro db t hwf
    have hwf' := wfDB_accept db hwf c
    unfold acceptSuccessCount
    by_cases h : (c.token == t && isOkE (accept_invitation db c).1) = true
    · rw [if_pos h]
      have h' := h
      simp only [Bool.and_eq_true] at h'
      have hok : isOkE (accept_invitation db c).1 = true := h'.2
      have hct : c.token = t := beq_iff_eq.mp h'.1
      have hacc : statusByToken (accept_invitation db c).2 t = some STATUS_ACCEPTED := by
        rw [← hct]
        exact accept_success_status db hwf c hok
      rw [count_zero_of_accepted rest (accept_invitation db c).2 t hwf' hacc]
    · rw [if_neg h]
      simp only [Nat.zero_add]
      exact ih _ t hwf'

/-- C3: accept_invitation succeeds at most once per token across any call
sequence; a success leaves the invitation in the accepted status, and
against an accepted invitation every further call with any user fails
with the already-accepted error and changes nothing (in particular it
creates no membership). -/
theorem accept_invitation_at_most_once (db : DB) (t : String) (calls : List AcceptCall)
    (hwf : wfDB db) :
    acceptSuccessCount db calls t ≤ 1 ∧
    (∀ c : AcceptCall, c.token = t → isOkE (accept_invitation db c).1 = true →
      statusByToken (accept_invitation db c).2 t = some STATUS_ACCEPTED) ∧
    (statusByToken db t = some STATUS_ACCEPTED →
      ∀ c : AcceptCall, c.token = t →
        accept_invitation db c =
          (Except.error (InvErr.invalid "Invitation has already been accepted"), db)) := by
  refine ⟨count_le_one calls db t hwf, ?_, ?_⟩
  · intro c hct hok
    rw [← hct]
    exact accept_success_status db hwf c hok
  · intro hacc c hct
    obtain ⟨invT, hfT, hsT⟩ := statusByToken_some hacc
    exact accept_on_accepted db c invT (by rw [hct]; exact hfT) hsT

/-- Witness for C3: in exDbAcc the two-call sequence on token inv-7
succeeds at most once, and the first success leaves the invitation
accepted. -/
theorem accept_invitation_at_most_once_witness :
    acceptSuccessCount exDbAcc
      [⟨"inv-7", 30, none, true, 5⟩, ⟨"inv-7", 30, none, true, 6⟩] "inv-7" ≤ 1 ∧
    statusByToken (accept_invitation exDbAcc ⟨"inv-7", 30, none, true, 5⟩).2 "inv-7" =
      some STATUS_ACCEPTED := by
  have h := accept_invitation_at_most_once exDbAcc "inv-7"
    [⟨"inv-7", 30, none, true, 5⟩, ⟨"inv-7", 30, none, true, 6⟩] (by decide)
  exact ⟨h.1, h.2.1 ⟨"inv-7", 30, none, true, 5⟩ rfl (by decide)⟩

/-- C4: a pending invitation is expired iff its expires_at is strictly
before now; in that case accept_invitation persists the expired
transition and fails with the expiration error, and a second attempt on
the same token short-circuits on the non-pending status; with expires_at
at or after now the call never fails with an expiration error. -/
theorem accept_invitation_expiry_boundary (db : DB) (c : AcceptCall) (inv : InvRow)
    (hids : (db.invitations.map (fun i => i.id)).Nodup)
    (hf : findInvByToken db c.token = some inv)
    (hp : inv.status = STATUS_PENDING) :
    (is_token_expired inv c.now = true ↔ inv.expiresAt < c.now) ∧
    (inv.expiresAt < c.now →
      accept_invitation db c = (Except.error (InvErr.expired "Invitation has expired"),
        (update_invitation_status db inv.id STATUS_EXPIRED none c.now).2) ∧
      statusByToken (accept_invitation db c).2 c.token = some STATUS_EXPIRED ∧
      (∀ c2 : AcceptCall, c2.token = c.token →
        accept_invitation (accept_invitation db c).2 c2 =
          (Except.error (InvErr.invalid "Invitation is no longer valid"),
           (accept_invitation db c).2))) ∧
    (c.now ≤ inv.expiresAt →
      ∀ m, (accept_invitation db c).1 ≠ Except.error (InvErr.expired m)) := by
  refine ⟨by simp [is_token_expired], ?_, ?_⟩
  · intro hlt
    have hex : is_token_expired inv c.now = true := by simp [is_token_expired, hlt]
    have hmain : accept_invitation db c =
        (Except.error (InvErr.expired "Invitation has expired"),
         (update_invitation_status db inv.id STATUS_EXPIRED none c.now).2) := by
      simp [accept_invitation, hf, hp, hex]
    refine ⟨hmain, ?_, ?_⟩
    · rw [hmain]
      exact update_inv_statusByToken db hids c.token inv hf STATUS_EXPIRED none c.now
    · intro c2 hct2
      rw [hmain]
      obtain ⟨invE, hfE, hsE⟩ := statusByToken_some
        (update_inv_statusByToken db hids c.token inv hf STATUS_EXPIRED none c.now)
      simp only [STATUS_EXPIRED] at hfE hsE
      simp [accept_invitation, hct2, hfE, hsE,
        STATUS_PENDING, STATUS_ACCEPTED, STATUS_REVOKED, STATUS_EXPIRED]
  · intro hge m
    have hex : is_token_expired inv c.now = false := by
      simp only [is_token_expired, decide_eq_false_iff_not]
      omega
    cases hu : getUserById db c.userId with
    | none => simp [accept_invitation, hf, hp, hex, hu]
    | some user =>
      cases hte : (match truthyEmail user.email with
                   | some e => some e
                   | none => truthyEmail c.kcEmail) with
      | none => simp [accept_invitation, hf, hp, hex, hu, hte]
      | some ue =>
        by_cases hm2 : (normEmail ue != normEmail inv.email) = true
        · simp [accept_invitation, hf, hp, hex, hu, hte, hm2]
        · cases hgm : getOrgMember db inv.orgId c.userId with
          | some mrow => simp [accept_invitation, hf, hp, hex, hu, hte, hm2, hgm]
          | none =>
            by_cases hl : c.litellmOk = true
            · simp only [accept_invitation, hf, hp, hex, hu, hte, hm2, hgm, hl]
              cases (update_invitation_status
                  (add_user_to_org db inv.orgId c.userId inv.roleId "active")
                  inv.id STATUS_ACCEPTED (some c.userId) c.now).1 <;> simp
            · simp [accept_invitation, hf, hp, hex, hu, hte, hm2, hgm, hl]

/-- Witness for C4 at exDbAcc: with now equal to expires_at the call does
not fail as expired; with expires_at one microsecond before now it does,
the expired status is persisted, and a retry short-circuits. -/
theorem accept_invitation_expiry_boundary_witness :
    (∀ m, (accept_invitation exDbAcc ⟨"inv-7", 30, none, true, 1000⟩).1 ≠
       Except.error (InvErr.expired m)) ∧
    statusByToken (accept_invitation exDbAcc ⟨"inv-7", 30, none, true, 1001⟩).2 "inv-7" =
      some STATUS_EXPIRED ∧
    (∀ c2 : AcceptCall, c2.token = "inv-7" →
      accept_invitation (accept_invitation exDbAcc ⟨"inv-7", 30, none, true, 1001⟩).2 c2 =
        (Except.error (InvErr.invalid "Invitation is no longer valid"),
         (accept_invitation exDbAcc ⟨"inv-7", 30, none, true, 1001⟩).2)) := by
  have h1 := accept_invitation_expiry_boundary exDbAcc ⟨"inv-7", 30, none, true, 1000⟩
    exInvPending (by decide) (by decide) (by decide)
  have h2 := accept_invitation_expiry_boundary exDbAcc ⟨"inv-7", 30, none, true, 1001⟩
    exInvPending (by decide) (by decide) (by decide)
  exact ⟨h1.2.2 (by decide), (h2.2.1 (by decide)).2.1, (h2.2.1 (by decide)).2.2⟩

/-- C9: the store-level update_invitation_status enforces no state-machine
restriction: for every existing invitation and every status string it
overwrites the stored status with the requested one — including moving a
terminal invitation back to pending — so the one-way transition
discipline exists only because the service layer never requests a
forbidden transition. -/
theorem update_invitation_status_unrestricted (db : DB) (invId : Nat) (st : String)
    (ab : Option Nat) (now : Int) (inv : InvRow)
    (h : findInvById db invId = some inv) :
    ∃ inv2 db1, update_invitation_status db invId st ab now = (some inv2, db1) ∧
      inv2.status = st ∧ inv2.id = inv.id ∧ inv2.token = inv.token ∧
      findInvById db1 invId = some inv2 := by
  unfold update_invitation_status
  rw [h]
  refine ⟨setStatusRow st ab now inv, _, rfl,
    (setStatusRow_fields st ab now inv).2.2,
    (setStatusRow_fields st ab now inv).1,
    (setStatusRow_fields st ab now inv).2.1, ?_⟩
  unfold findInvById
  show (updateFirstInv db.invitations invId (setStatusRow st ab now)).find?
    (fun i => i.id == invId) = some (setStatusRow st ab now inv)
  exact updateFirstInv_find_id db.invitations invId _
    (fun i => (setStatusRow_fields st ab now i).1) inv h

/-- Witness for C9: the store moves an accepted invitation back to
pending without complaint. -/
theorem update_invitation_status_unrestricted_witness :
    ∃ inv2 db1, update_invitation_status exDbUpd 9 "pending" none 0 = (some inv2, db1) ∧
      inv2.status = "pending" ∧ findInvById db1 9 = some inv2 := by
  obtain ⟨inv2, db1, h1, h2, _, _, h5⟩ :=
    update_invitation_status_unrestricted exDbUpd 9 "pending" none 0 exInvAccepted (by decide)
  exact ⟨inv2, db1, h1, h2, h5⟩

/-- C7: when create_invitation succeeds with a working email channel, the
very same result — same returned invitation, same persisted state — is
produced when the email dispatch collaborator raises: the failure is
caught inside the service and never propagates. -/
theorem create_invitation_email_failure_swallowed (db : DB) (c : CreateCall) (e : String)
    (inv : InvRow) (db1 : DB)
    (h : create_invitation db { c with emailOk := true } e = (Except.ok inv, db1)) :
    ∀ b, create_invitation db { c with emailOk := b } e = (Except.ok inv, db1) := by
  intro b
  have heq : create_invitation db { c with emailOk := b } e =
      create_invitation db { c with emailOk := true } e := by
    cases b <;> (cases c; rfl)
  rw [heq]
  exact h

/-- Witness for C7: the concrete creation succeeds and yields the same
invitation and state with the email channel broken. -/
theorem create_invitation_email_failure_swallowed_witness :
    ∃ inv db1,
      create_invitation exDbInvite { exCallInvite with emailOk := true } "Bob@X.com " =
        (Except.ok inv, db1) ∧
      create_invitation exDbInvite { exCallInvite with emailOk := false } "Bob@X.com " =
        (Except.ok inv, db1) := by
  cases hx : (create_invitation exDbInvite { exCallInvite with emailOk := true } "Bob@X.com ").1 with
  | ok inv =>
    refine ⟨inv, (create_invitation exDbInvite { exCallInvite with emailOk := true } "Bob@X.com ").2,
      Prod.ext_iff.mpr ⟨hx, rfl⟩, ?_⟩
    exact create_invitation_email_failure_swallowed exDbInvite exCallInvite "Bob@X.com " inv _
      (Prod.ext_iff.mpr ⟨hx, rfl⟩) false
  | error err =>
    exfalso
    have hok : isOkE (create_invitation exDbInvite { exCallInvite with emailOk := true } "Bob@X.com ").1 = true := by
      decide
    rw [hx] at hok
    simp [isOkE] at hok

/-- Helper: a successful creation stores the service-normalized,
store-normalized email. -/
theorem create_invitation_ok_email (db : DB) (c : CreateCall) (e : String)
    (inv : InvRow) (db1 : DB)
    (h : create_invitation db c e = (Except.ok inv, db1)) :
    inv.email = normEmail (normEmail e) := by
  unfold create_invitation at h
  split at h
  · simp at h
  · split at h
    · simp at h
    · split at h <;>
        (have h1 := congrArg Prod.fst h
         simp only [Prod.fst, Except.ok.injEq] at h1
         rw [← h1]
         simp [store_create_invitation])

/-- C8: email handling round-trips under normalization: a successful
create_invitation stores the invitee email lowercased and trimmed (the
service normalizes once and the store again), and accept_invitation
compares the accepting user's resolved email to the stored one after
normalizing both sides, failing with the email-mismatch error exactly when
they differ and passing the email gate (so acceptance can succeed) when
they agree. -/
theorem invitation_email_normalization_round_trip :
    (∀ db c e inv db1, create_invitation db c e = (Except.ok inv, db1) →
       inv.email = normEmail (normEmail e)) ∧
    (∀ (db : DB) (c : AcceptCall) inv user ue,
       findInvByToken db c.token = some inv → inv.status = STATUS_PENDING →
       is_token_expired inv c.now = false →
       getUserById db c.userId = some user → truthyEmail user.email = some ue →
       ((normEmail ue ≠ normEmail inv.email →
          accept_invitation db c =
            (Except.error (InvErr.emailMismatch "Your email does not match the invitation"), db)) ∧
        (normEmail ue = normEmail inv.email →
          getOrgMember db inv.orgId c.userId = none → c.litellmOk = true →
          isOkE (accept_invitation db c).1 = true))) := by
  refine ⟨create_invitation_ok_email, ?_⟩
  intro db c inv user ue hf hp hex hu hte
  constructor
  · intro hne
    have hbne : (normEmail ue != normEmail inv.email) = true := by simp [hne]
    simp [accept_invitation, hf, hp, hex, hu, hte, hbne]
  · intro heq hgm hl
    have hbne : (normEmail ue != normEmail inv.email) = false := by simp [heq]
    simp only [accept_invitation, hf, hp, hex, hu, hte, hbne, hgm, hl]
    cases (update_invitation_status (add_user_to_org db inv.orgId c.userId inv.roleId "active")
        inv.id STATUS_ACCEPTED (some c.userId) c.now).1 <;> simp [isOkE]

/-- Witness for C8: creating with a cased and padded email stores it as
alice@example.com; acceptance by the user whose resolved email is
ALICE@example.com passes the email gate and succeeds, both on the state
the creation produced and in the standing example state. -/
theorem invitation_email_normalization_round_trip_witness :
    (∃ inv db1,
       create_invitation exDbRT exCallRT "  Alice@Example.COM  " = (Except.ok inv, db1) ∧
       inv.email = "alice@example.com" ∧
       isOkE (accept_invitation db1 ⟨"inv-1", 30, none, true, 5⟩).1 = true) ∧
    isOkE (accept_invitation exDbAcc ⟨"inv-7", 30, none, true, 5⟩).1 = true := by
  constructor
  · cases hx : (create_invitation exDbRT exCallRT "  Alice@Example.COM  ").1 with
    | ok inv =>
      refine ⟨inv, (create_invitation exDbRT exCallRT "  Alice@Example.COM  ").2,
        Prod.ext_iff.mpr ⟨hx, rfl⟩, ?_, ?_⟩
      · have he := invitation_email_normalization_round_trip.1 exDbRT exCallRT
          "  Alice@Example.COM  " inv _ (Prod.ext_iff.mpr ⟨hx, rfl⟩)
        rw [he]
        decide
      · decide
    | error err =>
      exfalso
      have hok : isOkE (create_invitation exDbRT exCallRT "  Alice@Example.COM  ").1 = true := by
        decide
      rw [hx] at hok
      simp [isOkE] at hok
  · exact (invitation_email_normalization_round_trip.2 exDbAcc ⟨"inv-7", 30, none, true, 5⟩
      exInvPending ⟨30, some "ALICE@example.com", some 1⟩ "ALICE@example.com"
      (by decide) (by decide) (by decide) (by decide) (by decide)).2 (by decide) (by decide) rfl

/-- Helper: SameCore is reflexive. -/
theorem sameCore_refl (a : DB) : SameCore a a := ⟨rfl, rfl, rfl, rfl⟩

/-- Helper: SameCore is transitive. -/
theorem sameCore_trans {a b c : DB} (h1 : SameCore a b) (h2 : SameCore b c) :
    SameCore a c :=
  ⟨h1.1.trans h2.1, h1.2.1.trans h2.2.1, h1.2.2.1.trans h2.2.2.1, h1.2.2.2.trans h2.2.2.2⟩

/-- Helper: the validation gate depends only on the core tables. -/
theorem inviteGate_core {a b : DB} (h : SameCore a b) (c : CreateCall) :
    inviteGate a c = inviteGate b c := by
  obtain ⟨h1, h2, h3, h4⟩ := h
  unfold inviteGate findOrg getOrgMember getRoleById getRoleByName
  rw [h1, h3, h4]

/-- Helper: the user lookup depends only on the core tables. -/
theorem getUserByEmail_core {a b : DB} (h : SameCore a b) (e : String) :
    getUserByEmail a e = getUserByEmail b e := by
  unfold getUserByEmail
  rw [h.2.1]

/-- Helper: the membership lookup depends only on the core tables. -/
theorem getOrgMember_core {a b : DB} (h : SameCore a b) (o u : Nat) :
    getOrgMember a o u = getOrgMember b o u := by
  unfold getOrgMember
  rw [h.2.2.2]

/-- Helper: no error means success. -/
theorem errOfC_none_iff (x : Except CreateErr InvRow) :
    errOfC x = none ↔ isOkE x = true := by
  cases x <;> simp [errOfC, isOkE]

/-- Helper: the error projection determines the failure. -/
theorem errOfC_some_iff (x : Except CreateErr InvRow) (er : CreateErr) :
    errOfC x = some er ↔ x = Except.error er := by
  cases x <;> simp [errOfC]

/-- Helper: creation outcomes (success or the exact error) agree between
states sharing the core tables. -/
theorem create_invitation_classify {a b : DB} (h : SameCore a b) (c : CreateCall) (e : String) :
    errOfC (create_invitation a c e).1 = errOfC (create_invitation b c e).1 := by
  unfold create_invitation
  rw [inviteGate_core h c]
  cases hg : inviteGate b c with
  | error err => rfl
  | ok tr =>
    simp only [getUserByEmail_core h, getOrgMember_core h]
    by_cases hm : (match getUserByEmail b (normEmail e) with
                   | some u => (getOrgMember b c.orgId u.id).isSome
                   | none => false) = true
    · rw [if_pos hm, if_pos hm]
    · rw [if_neg hm, if_neg hm]
      cases sendEmailResult c.emailOk <;> rfl

/-- Helper: the defining equation of create_invitation once the gate
failed. -/
theorem create_invitation_gate_err (db : DB) (c : CreateCall) (e : String) (err : CreateErr)
    (hg : inviteGate db c = Except.error err) :
    create_invitation db c e = (Except.error err, db) := by
  unfold create_invitation
  rw [hg]

/-- Helper: the defining equation of create_invitation once the gate
passed. -/
theorem create_invitation_gate_ok (db : DB) (c : CreateCall) (e : String) (tr : RoleRow)
    (hg : inviteGate db c = Except.ok tr) :
    create_invitation db c e =
      (if (match getUserByEmail db (normEmail e) with
           | some u => (getOrgMember db c.orgId u.id).isSome
           | none => false) then
         (Except.error (CreateErr.alreadyMember "User is already a member of this organization"), db)
       else
         match sendEmailResult c.emailOk with
         | Except.ok _ =>
           (Except.ok (store_create_invitation db c.orgId (normEmail e)
              tr.id c.inviterId c.now).1,
            (store_create_invitation db c.orgId (normEmail e)
              tr.id c.inviterId c.now).2)
         | Except.error _ =>
           (Except.ok (store_create_invitation db c.orgId (normEmail e)
              tr.id c.inviterId c.now).1,
            (store_create_invitation db c.orgId (normEmail e)
              tr.id c.inviterId c.now).2)) := by
  unfold create_invitation
  rw [hg]

/-- Helper: creation preserves the core tables. -/
theorem create_invitation_core (db : DB) (c : CreateCall) (e : String) :
    SameCore db (create_invitation db c e).2 := by
  cases hg : inviteGate db c with
  | error err =>
    rw [create_invitation_gate_err db c e err hg]
    exact ⟨rfl, rfl, rfl, rfl⟩
  | ok tr =>
    rw [create_invitation_gate_ok db c e tr hg]
    by_cases hm : (match getUserByEmail db (normEmail e) with
                   | some u => (getOrgMember db c.orgId u.id).isSome
                   | none => false) = true
    · rw [if_pos hm]
      exact ⟨rfl, rfl, rfl, rfl⟩
    · rw [if_neg hm]
      cases sendEmailResult c.emailOk <;> exact ⟨rfl, rfl, rfl, rfl⟩

/-- Helper: a failing creation leaves the state unchanged. -/
theorem create_invitation_err_db (db : DB) (c : CreateCall) (e : String) (err : CreateErr)
    (h : (create_invitation db c e).1 = Except.error err) :
    create_invitation db c e = (Except.error err, db) := by
  cases hg : inviteGate db c with
  | error e2 =>
    have hfull := create_invitation_gate_err db c e e2 hg
    rw [hfull] at h
    simp only [Prod.fst, Except.error.injEq] at h
    rw [hfull, h]
  | ok tr =>
    by_cases hm : (match getUserByEmail db (normEmail e) with
                   | some u => (getOrgMember db c.orgId u.id).isSome
                   | none => false) = true
    · have hfull : create_invitation db c e =
          (Except.error (CreateErr.alreadyMember "User is already a member of this organization"), db) := by
        rw [create_invitation_gate_ok db c e tr hg, if_pos hm]
      rw [hfull] at h
      simp only [Prod.fst, Except.error.injEq] at h
      rw [hfull, h]
    · exfalso
      have hok : isOkE (create_invitation db c e).1 = true := by
        rw [create_invitation_gate_ok db c e tr hg, if_neg hm]
        cases sendEmailResult c.emailOk <;> rfl
      rw [h] at hok
      simp [isOkE] at hok

/-- Helper: once the gate passed, a creation either succeeds or fails
with the already-a-member error, leaving the state unchanged. -/
theorem gate_ok_create_classes (db : DB) (c : CreateCall) (e : String) (tr : RoleRow)
    (hg : inviteGate db c = Except.ok tr) :
    (∃ inv db1, create_invitation db c e = (Except.ok inv, db1)) ∨
    create_invitation db c e =
      (Except.error (CreateErr.alreadyMember "User is already a member of this organization"), db) := by
  by_cases hm : (match getUserByEmail db (normEmail e) with
                 | some u => (getOrgMember db c.orgId u.id).isSome
                 | none => false) = true
  · right
    rw [create_invitation_gate_ok db c e tr hg, if_pos hm]
  · left
    rw [create_invitation_gate_ok db c e tr hg, if_neg hm]
    cases sendEmailResult c.emailOk <;> exact ⟨_, _, rfl⟩

/-- Helper: SameCore is symmetric. -/
theorem sameCore_symm {a b : DB} (h : SameCore a b) : SameCore b a :=
  ⟨h.1.symm, h.2.1.symm, h.2.2.1.symm, h.2.2.2.symm⟩

/-- Helper: defining equation of the fan-out on a worker success. -/
theorem processEmails_cons_ok (a : DB) (c : CreateCall) (e : String) (rest : List String)
    (r : String × Option InvRow × Option String) (a1 : DB)
    (hcs : create_single a c e = (Except.ok r, a1)) :
    processEmails a c (e :: rest) =
      (match processEmails a1 c rest with
       | (Except.error err, db2) => (Except.error err, db2)
       | (Except.ok rs, db2) => (Except.ok (r :: rs), db2)) := by
  simp only [processEmails]
  rw [hcs]

/-- Helper: defining equation of the fan-out on an uncaught worker
error: the whole call fails with that error and the state the worker
left. -/
theorem processEmails_cons_err (a : DB) (c : CreateCall) (e : String) (rest : List String)
    (err : CreateErr) (a1 : DB)
    (hcs : create_single a c e = (Except.error err, a1)) :
    processEmails a c (e :: rest) = (Except.error err, a1) := by
  unfold processEmails
  rw [hcs]

/-- Helper: defining equation of the batch once the gate passed. -/
theorem batch_gate_ok_eq (db : DB) (c : CreateCall) (emails : List String) (tr : RoleRow)
    (hg : inviteGate db c = Except.ok tr) :
    create_invitations_batch db c emails =
      (match processEmails db c emails with
       | (Except.error err, db1) => (Except.error err, db1)
       | (Except.ok results, db1) =>
         (Except.ok (results.filterMap (fun r => r.2.1),
                     results.filterMap (fun r => r.2.2.map (fun m => (r.1, m)))), db1)) := by
  unfold create_invitations_batch
  rw [hg]

/-- Helper: once the shared gate passed on the initial state, the fan-out
returns a result row per email, and both the recorded failures and the
emails of the created invitations are fully determined by running
create_invitation against the initial state — each email's outcome is
independent of its siblings. -/
theorem processEmails_spec (c : CreateCall) (db0 : DB) (tr : RoleRow)
    (hg : inviteGate db0 c = Except.ok tr) :
    ∀ (emails : List String) (a : DB), SameCore db0 a →
      ∃ rs db1, processEmails a c emails = (Except.ok rs, db1) ∧ SameCore db0 db1 ∧
        rs.filterMap (fun r => r.2.2.map (fun m => (r.1, m))) =
          emails.filterMap (fun e =>
            match (create_invitation db0 c e).1 with
            | Except.error (CreateErr.alreadyMember m) => some (e, m)
            | Except.error (CreateErr.valueErr m) => some (e, m)
            | _ => none) ∧
        (rs.filterMap (fun r => r.2.1)).map (fun i => i.email) =
          (emails.filter (fun e => isOkE (create_invitation db0 c e).1)).map
            (fun e => normEmail (normEmail e)) := by
  intro emails
  induction emails with
  | nil =>
    intro a hcore
    exact ⟨[], a, rfl, hcore, rfl, rfl⟩
  | cons e rest ih =>
    intro a hcore
    have hga : inviteGate a c = Except.ok tr := by
      rw [← inviteGate_core hcore c]
      exact hg
    have hclass := create_invitation_classify hcore c e
    rcases gate_ok_create_classes a c e tr hga with ⟨inv, a1, hc⟩ | hc
    · have hokA : isOkE (create_invitation a c e).1 = true := by rw [hc]; rfl
      have hok0 : isOkE (create_invitation db0 c e).1 = true := by
        rw [← errOfC_none_iff] at hokA ⊢
        rw [hclass]
        exact hokA
      have hcoreA1 : SameCore db0 a1 := by
        have h2 := create_invitation_core a c e
        rw [hc] at h2
        exact sameCore_trans hcore h2
      have hemail : inv.email = normEmail (normEmail e) :=
        create_invitation_ok_email a c e inv a1 hc
      have hcs : create_single a c e = (Except.ok (e, some inv, none), a1) := by
        unfold create_single
        rw [hc]
      obtain ⟨rs, db1, hpe, hcore1, hfail, hsucc⟩ := ih a1 hcoreA1
      refine ⟨(e, some inv, none) :: rs, db1, ?_, hcore1, ?_, ?_⟩
      · rw [processEmails_cons_ok a c e rest _ a1 hcs, hpe]
      · simp only [List.filterMap_cons]
        cases hx0 : (create_invitation db0 c e).1 with
        | ok inv0 => simpa using hfail
        | error err0 => rw [hx0] at hok0; simp [isOkE] at hok0
      · simp only [List.filterMap_cons, List.filter_cons]
        simp [hok0, hemail, hsucc]
    · have herrA : errOfC (create_invitation a c e).1 =
          some (CreateErr.alreadyMember "User is already a member of this organization") := by
        rw [hc]
        rfl
      have herr0 : (create_invitation db0 c e).1 =
          Except.error (CreateErr.alreadyMember "User is already a member of this organization") := by
        rw [← errOfC_some_iff, hclass]
        exact herrA
      have hcs : create_single a c e =
          (Except.ok (e, none, some "User is already a member of this organization"), a) := by
        unfold create_single
        rw [hc]
      obtain ⟨rs, db1, hpe, hcore1, hfail, hsucc⟩ := ih a hcore
      refine ⟨(e, none, some "User is already a member of this organization") :: rs, db1,
        ?_, hcore1, ?_, ?_⟩
      · rw [processEmails_cons_ok a c e rest _ a hcs, hpe]
      · simp only [List.filterMap_cons]
        rw [herr0]
        simpa using hfail
      · simp only [List.filterMap_cons, List.filter_cons]
        have hnok : isOkE (create_invitation db0 c e).1 = false := by rw [herr0]; rfl
        simp [hnok, hsucc]

/-- C6: create_invitations_batch runs the shared validation gate up front
— a gate failure aborts the whole batch with no invitation attempted and
the state unchanged — and once the gate passes, every email gets a result:
the returned failure pairs and the stored emails of the created
invitations are exactly what create_invitation decides for each email
against the initial state, independently of the sibling emails. -/
theorem batch_gate_once_and_outcomes_independent (db : DB) (c : CreateCall)
    (emails : List String) :
    (∀ err, inviteGate db c = Except.error err →
       create_invitations_batch db c emails = (Except.error err, db)) ∧
    (∀ tr, inviteGate db c = Except.ok tr →
       ∃ succ failed db1,
         create_invitations_batch db c emails = (Except.ok (succ, failed), db1) ∧
         failed = emails.filterMap (fun e =>
           match (create_invitation db c e).1 with
           | Except.error (CreateErr.alreadyMember m) => some (e, m)
           | Except.error (CreateErr.valueErr m) => some (e, m)
           | _ => none) ∧
         succ.map (fun i => i.email) =
           (emails.filter (fun e => isOkE (create_invitation db c e).1)).map
             (fun e => normEmail (normEmail e))) := by
  constructor
  · intro err hg
    unfold create_invitations_batch
    rw [hg]
  · intro tr hg
    obtain ⟨rs, db1, hpe, _, hfail, hsucc⟩ :=
      processEmails_spec c db tr hg emails db (sameCore_refl db)
    refine ⟨rs.filterMap (fun r => r.2.1),
      rs.filterMap (fun r => r.2.2.map (fun m => (r.1, m))), db1, ?_, hfail, hsucc⟩
    rw [batch_gate_ok_eq db c emails tr hg, hpe]

/-- Witness for C6 (the spec's Scenario E): batching a@x.com (already a
member) and b@x.com yields one created invitation for b and one recorded
failure for a. -/
theorem batch_gate_once_and_outcomes_independent_witness :
    ∃ succ failed db1,
      create_invitations_batch exDbBatch exCallInvite ["a@x.com", "b@x.com"] =
        (Except.ok (succ, failed), db1) ∧
      failed = [("a@x.com", "User is already a member of this organization")] ∧
      succ.map (fun i => i.email) = ["b@x.com"] := by
  obtain ⟨succ, failed, db1, h1, h2, h3⟩ :=
    (batch_gate_once_and_outcomes_independent exDbBatch exCallInvite
      ["a@x.com", "b@x.com"]).2 roleMember (by decide)
  refine ⟨succ, failed, db1, h1, ?_, ?_⟩
  · rw [h2]
    decide
  · rw [h3]
    decide

/-- C10: the per-email worker create_single records a failure only for
UserAlreadyMemberError and ValueError; an InsufficientPermissionError from
the re-run per-email validation propagates, and once one worker
propagates, the whole fan-out returns that error with no result list for
any sibling email. -/
theorem create_single_catch_and_propagation (db : DB) (c : CreateCall) (e : String)
    (m : String) (rest : List String) :
    ((create_invitation db c e).1 = Except.error (CreateErr.alreadyMember m) →
       create_single db c e = (Except.ok (e, none, some m), db)) ∧
    ((create_invitation db c e).1 = Except.error (CreateErr.valueErr m) →
       create_single db c e = (Except.ok (e, none, some m), db)) ∧
    ((create_invitation db c e).1 = Except.error (CreateErr.insufficientPermission m) →
       create_single db c e = (Except.error (CreateErr.insufficientPermission m), db) ∧
       processEmails db c (e :: rest) = (Except.error (CreateErr.insufficientPermission m), db) ∧
       ∀ out db1, processEmails db c (e :: rest) ≠ (Except.ok out, db1)) := by
  refine ⟨?_, ?_, ?_⟩
  · intro h
    have hfull := create_invitation_err_db db c e _ h
    unfold create_single
    rw [hfull]
  · intro h
    have hfull := create_invitation_err_db db c e _ h
    unfold create_single
    rw [hfull]
  · intro h
    have hfull := create_invitation_err_db db c e _ h
    have hcs : create_single db c e =
        (Except.error (CreateErr.insufficientPermission m), db) := by
      unfold create_single
      rw [hfull]
    refine ⟨hcs, processEmails_cons_err db c e rest _ db hcs, ?_⟩
    intro out db1 hcontra
    rw [processEmails_cons_err db c e rest _ db hcs] at hcontra
    simp at hcontra

/-- Witness for C10: with a non-member inviter the worker propagates the
permission error and the fan-out over both emails fails wholesale; in
exDbBatch the already-a-member failure for a@x.com is recorded instead. -/
theorem create_single_catch_and_propagation_witness :
    (create_single exDbNoMem exCallInvite "a@x.com" =
       (Except.error (CreateErr.insufficientPermission "You are not a member of this organization"), exDbNoMem) ∧
     processEmails exDbNoMem exCallInvite ["a@x.com", "b@x.com"] =
       (Except.error (CreateErr.insufficientPermission "You are not a member of this organization"), exDbNoMem)) ∧
    create_single exDbBatch exCallInvite "a@x.com" =
      (Except.ok ("a@x.com", none, some "User is already a member of this organization"), exDbBatch) := by
  have h1 := (create_single_catch_and_propagation exDbNoMem exCallInvite "a@x.com"
    "You are not a member of this organization" ["b@x.com"]).2.2 (by decide)
  have h2 := (create_single_catch_and_propagation exDbBatch exCallInvite "a@x.com"
    "User is already a member of this organization" []).1 (by decide)
  exact ⟨⟨h1.1, h1.2.1⟩, h2⟩

/-- Helper: the staged dependent-table deletions touch neither the user
nor the membership table. -/
theorem stage_core (db : DB) (o : Nat) :
    (stageDependentDeletes db o).users = db.users ∧
    (stageDependentDeletes db o).members = db.members := by
  unfold stageDependentDeletes
  generalize depTables = l
  induction l generalizing db with
  | nil => exact ⟨rfl, rfl⟩
  | cons t ts ih =>
    simp only [List.foldl_cons]
    exact ⟨(ih (delDepTable db t o)).1, (ih (delDepTable db t o)).2⟩

/-- Helper: the orphan query reads only users and memberships, so staging
the dependent deletions does not change its answer. -/
theorem orphaned_staged (db : DB) (o : Nat) :
    orphanedUserIds (stageDependentDeletes db o) o = orphanedUserIds db o := by
  unfold orphanedUserIds
  rw [(stage_core db o).1, (stage_core db o).2]

/-- Helper: defining equation of delete_org_cascade when the org
exists. -/
theorem delete_org_found_eq (db : DB) (o : Nat) (ok : Bool) (org : OrgRow)
    (hfind : findOrg db o = some org) :
    delete_org_cascade db o ok =
      (if (orphanedUserIds (stageDependentDeletes db o) o).isEmpty then
         (let staged2 := reassignCurrentOrg (stageDependentDeletes db o) o
          let staged3 := { staged2 with members := staged2.members.filter (fun m => !(m.orgId == o)) }
          let staged4 := { staged3 with orgs := staged3.orgs.filter (fun x => !(x.id == o)) }
          let ev2 := depTables.map DelEvent.delRows ++ [DelEvent.orphanCheck] ++
            [DelEvent.reassign, DelEvent.delMembers, DelEvent.delOrg, DelEvent.litellmCall]
          if ok then (Except.ok (some org), staged4, ev2 ++ [DelEvent.commitTx])
          else (Except.error DeleteErr.litellmFailed, db, ev2 ++ [DelEvent.rollbackTx]))
       else
         (Except.error (DeleteErr.orphaned (orphanedUserIds (stageDependentDeletes db o) o)), db,
          depTables.map DelEvent.delRows ++ [DelEvent.orphanCheck] ++ [DelEvent.rollbackTx])) := by
  unfold delete_org_cascade
  rw [hfind]

/-- C5 counterexample: deleting org 77 of exDbDel fails with the
orphaned-users error naming user 5 and the committed state is unchanged,
but the orphan check does not run strictly before every destructive
row-deletion statement: the dependent-table DELETE statements execute
first (the staged session state has already lost the billing row when the
check runs), refuting the claimed ordering. -/
theorem delete_org_orphan_check_order_cex :
    (delete_org_cascade exDbDel 77 true).1 = Except.error (DeleteErr.orphaned [5]) ∧
    (delete_org_cascade exDbDel 77 true).2.1 = exDbDel ∧
    checkBeforeAllRowDeletes (delete_org_cascade exDbDel 77 true).2.2 = false ∧
    (stageDependentDeletes exDbDel 77).depRows = [] ∧
    exDbDel.depRows ≠ [] := by
  decide

/-- C5 (amended): when deleting an existing org would orphan users, the
operation fails with the orphaned-users error naming exactly those users,
the transaction rolls back so the resulting database state is unchanged
(no deletion is persisted), and the trace shows the orphan check ran
while the membership-row deletion, the org-row deletion, the pointer
reassignment and the commit never did — only the dependent-table DELETE
statements were staged before it, and they were rolled back. -/
theorem delete_org_orphan_abort_rolls_back (db : DB) (o : Nat) (ok : Bool) (org : OrgRow)
    (hfind : findOrg db o = some org) (hne : orphanedUserIds db o ≠ []) :
    ∃ tr, delete_org_cascade db o ok =
        (Except.error (DeleteErr.orphaned (orphanedUserIds db o)), db, tr) ∧
      DelEvent.orphanCheck ∈ tr ∧ DelEvent.commitTx ∉ tr ∧
      DelEvent.delMembers ∉ tr ∧ DelEvent.delOrg ∉ tr ∧ DelEvent.reassign ∉ tr := by
  have hor := orphaned_staged db o
  have hemp : (orphanedUserIds (stageDependentDeletes db o) o).isEmpty = false := by
    rw [hor]
    cases h : orphanedUserIds db o with
    | nil => exact absurd h hne
    | cons a l => rfl
  refine ⟨depTables.map DelEvent.delRows ++ [DelEvent.orphanCheck] ++ [DelEvent.rollbackTx],
    ?_, by decide, by decide, by decide, by decide, by decide⟩
  rw [delete_org_found_eq db o ok org hfind, if_neg (by simp [hemp]), hor]

/-- Witness for C5 (amended) at the concrete state exDbDel. -/
theorem delete_org_orphan_abort_rolls_back_witness :
    ∃ tr, delete_org_cascade exDbDel 77 true =
        (Except.error (DeleteErr.orphaned [5]), exDbDel, tr) ∧
      DelEvent.commitTx ∉ tr ∧ DelEvent.delMembers ∉ tr ∧ DelEvent.delOrg ∉ tr := by
  obtain ⟨tr, h1, h2, h3, h4, h5, h6⟩ :=
    delete_org_orphan_abort_rolls_back exDbDel 77 true ⟨77, "g"⟩ (by decide) (by decide)
  refine ⟨tr, ?_, h3, h4, h5⟩
  rw [h1]
  have hids : orphanedUserIds exDbDel 77 = [5] := by decide
  rw [hids]
